import Mathlib

/-!
Verification development for the `ew` scripting-language interpreter
(`src/ast.rs`, `src/interpreter.rs`).

The AST (`Stmt`, `AssignmentTarget`, `Expr`, the operator enums) and the
runtime data model (`Val`, `Frame`, the interpreter state) are translated
directly from the Rust source.  The evaluator is a fuel-indexed function:
the Rust interpreter can diverge (for example on `while (true) {}`), so
every recursive entry into `eval_expr` consumes one unit of fuel and `none`
means the fuel ran out.  All other recursion (statement lists, argument
lists, index chains, the finite `for` range) is structural and consumes no
fuel, exactly as the corresponding Rust loops do.

Modelling conventions, stated once:
* Rust `i64` is modelled as `Int`.  The machine width is observable in two
  places, both modelled faithfully: the `as usize` cast of an index is
  reduction modulo `2 ^ 64` (`toUsize`), and the division/remainder
  overflow panic at `(i64::MIN, -1)` — an abort in every build profile —
  is the no-result outcome `none` of `evalBinOp`.  Add/Sub/Mul/Neg
  overflow is build-profile dependent (wrap in release, panic in debug)
  and is modelled as unbounded arithmetic.
* Rust `f64` is modelled as `Rat`: the dispatch structure, the `== 0.0`
  tests and the comparison operators are mirrored exactly; IEEE rounding
  and float formatting are outside the model.
* `HashMap<String, Val>` is modelled as an association list with
  insert-or-update (`envSet`) and first-match lookup (`envGet`); this has
  the same observable get/insert/contains behaviour.
* `print`/`println`/`clear` write to stdout and `sleep` blocks; their
  effect on the interpreter state and their return value (`Unit`) are
  modelled, the I/O itself is out of scope (spec §1).
* `sin`/`cos`/`sqrt` return transcendental `f64` values that have no exact
  rational counterpart; the model returns `Float 0` for them.  No claim
  depends on these values, only on the fact that they succeed and do not
  touch the environment.
-/

namespace Ew

/-! ## AST (src/ast.rs) -/

mutual

/-- `Stmt` from src/ast.rs. -/
inductive Stmt where
  | Function : String → List String → List Stmt → Stmt
  | Return : Expr → Stmt
  | Assignment : String → Expr → Stmt
  | Reassignment : AssignmentTarget → Expr → Stmt
  | Expr : Expr → Stmt

/-- `AssignmentTarget` from src/ast.rs. -/
inductive AssignmentTarget where
  | Ident : String → AssignmentTarget
  | ArrayAccess : String → List Expr → AssignmentTarget

/-- `Expr` from src/ast.rs.  The payload of `For` is variable, start, end, body. -/
inductive Expr where
  | Int : Int → Expr
  | Float : Rat → Expr
  | Bool : Bool → Expr
  | Str : String → Expr
  | Array : List Expr → Expr
  | ArrayAccess : String → List Expr → Expr
  | Var : String → Expr
  | Unary : UnaryOp → Expr → Expr
  | Binary : BinaryOp → Expr → Expr → Expr
  | Call : String → List Expr → Expr
  | If : Expr → List Stmt → List Stmt → Expr
  | While : Expr → List Stmt → Expr
  | For : String → Expr → Expr → List Stmt → Expr
  | Block : List Stmt → Expr

/-- `UnaryOp` from src/ast.rs. -/
inductive UnaryOp where
  | Neg : UnaryOp
  | Not : UnaryOp

/-- `BinaryOp` from src/ast.rs. -/
inductive BinaryOp where
  | Add | Sub | Mul | Div | Mod
  | Eq | Ne | Lt | Le | Gt | Ge
  | And | Or

end

/-! ## Runtime values and environment (src/interpreter.rs) -/

/-- `Val` from src/interpreter.rs.  `Float` carries a `Rat` (see header). -/
inductive Val where
  | Int : Int → Val
  | Float : Rat → Val
  | Bool : Bool → Val
  | Str : String → Val
  | Array : List Val → Val
  | Function : List String → List Stmt → Val
  | Unit : Val

/-- Association-list model of `HashMap<String, Val>`: first-match lookup. -/
def envGet (e : List (String × Val)) (k : String) : Option Val :=
  match e with
  | [] => none
  | (k2, v) :: rest => if k2 = k then some v else envGet rest k

/-- Association-list model of `HashMap::insert`: update in place or append. -/
def envSet (e : List (String × Val)) (k : String) (v : Val) : List (String × Val) :=
  match e with
  | [] => [(k, v)]
  | (k2, v2) :: rest => if k2 = k then (k2, v) :: rest else (k2, v2) :: envSet rest k v

/-- `Frame` from src/interpreter.rs (`local` is a Lean keyword, hence `locals`). -/
structure Frame where
  locals : List (String × Val)
  parent : Option Nat

/-- `Frame::new()`. -/
def Frame.new : Frame := ⟨[], none⟩

/-- The fields of `Interpreter`: the global table and the frame stack.
The stack mirrors `Vec<Frame>`: index 0 is the bottom, the last element is
the top. -/
structure Interp where
  global : List (String × Val)
  stack : List Frame

/-- `Interpreter::new()`. -/
def initInterp : Interp := ⟨[], [Frame.new]⟩

/-- `Flow` from src/interpreter.rs (`cont` = `Flow::Continue`,
`ret` = `Flow::Return`). -/
inductive Flow where
  | cont : Val → Flow
  | ret : Val → Flow

/-- Apply a function to the last frame of the stack, the model of
`stack.last_mut()`.  The source `expect`s a non-empty stack; that state is
unreachable (the base frame is never popped), and the model is a no-op
there. -/
def updateLast (s : List Frame) (f : Frame → Frame) : List Frame :=
  match s with
  | [] => []
  | [a] => [f a]
  | a :: rest => a :: updateLast rest f

/-- The `as usize` cast of an `i64` index on a 64-bit target:
wrap modulo two to the 64 into `[0, 2^64)`. -/
def toUsize (n : Int) : Nat := (n % (2 ^ 64 : Int)).toNat

/-! ### Display and Debug formatting

`valDisplay` models `impl Display for Val`; `valDebug` models the derived
`Debug` used in error messages.  Float formatting uses the rational model;
the `Function` Debug form (which would print the whole AST) is abbreviated.
These strings appear only inside diagnostics. -/

/-- ASCII single quote, kept out of string literals. -/
def quoteChar : Char := Char.ofNat 39

mutual

/-- `impl Display for Val` (src/interpreter.rs lines 24-49). -/
def valDisplay : Val → String
  | .Int n => toString n
  | .Float q => toString q
  | .Bool b => toString b
  | .Str s => s
  | .Array vs => "[" ++ valDisplayItems vs ++ "]"
  | .Function ps _ => "<function(" ++ String.intercalate ", " ps ++ ")>"
  | .Unit => "()"

/-- Array elements joined by a comma and a space. -/
def valDisplayItems : List Val → String
  | [] => ""
  | [v] => valDisplay v
  | v :: rest => valDisplay v ++ ", " ++ valDisplayItems rest

end

mutual

/-- The derived `Debug` form of `Val`, as interpolated by format strings
using the debug specifier.  `Function` is abbreviated (no claim depends on
it). -/
def valDebug : Val → String
  | .Int n => "Int(" ++ toString n ++ ")"
  | .Float q => "Float(" ++ toString q ++ ")"
  | .Bool b => "Bool(" ++ toString b ++ ")"
  | .Str s => "Str(" ++ String.singleton (Char.ofNat 34) ++ s ++ String.singleton (Char.ofNat 34) ++ ")"
  | .Array vs => "Array([" ++ valDebugItems vs ++ "])"
  | .Function _ _ => "Function(..)"
  | .Unit => "Unit"

/-- Debug items joined by a comma and a space. -/
def valDebugItems : List Val → String
  | [] => ""
  | [v] => valDebug v
  | v :: rest => valDebug v ++ ", " ++ valDebugItems rest

end

/-- Debug form of `BinaryOp`. -/
def binOpDebug : BinaryOp → String
  | .Add => "Add" | .Sub => "Sub" | .Mul => "Mul" | .Div => "Div" | .Mod => "Mod"
  | .Eq => "Eq" | .Ne => "Ne" | .Lt => "Lt" | .Le => "Le" | .Gt => "Gt" | .Ge => "Ge"
  | .And => "And" | .Or => "Or"

/-- Debug form of `UnaryOp`. -/
def unOpDebug : UnaryOp → String
  | .Neg => "Neg"
  | .Not => "Not"

/-! ### Scope resolution (src/interpreter.rs `lookup`, `lookup_mut`) -/

/-- The parent-chain walk shared by `lookup` and `lookup_mut`: starting at
frame `idx`, return the index of the first frame of the chain whose locals
bind `name`, with the bound value.  The walk follows `parent` links; a
parent index is always smaller than the own index of the frame (spec 3.3), the
`p < idx` guard mirrors that invariant, and the `fuel` argument (always
called with `fuel = idx`, which the guard makes sufficient) keeps the
recursion structural. -/
def chainFindAux (stack : List Frame) (name : String) : Nat → Nat → Option (Nat × Val)
  | fuel, idx =>
    match stack.get? idx with
    | none => none
    | some fr =>
      match envGet fr.locals name with
      | some v => some (idx, v)
      | none =>
        match fr.parent with
        | none => none
        | some p =>
          match fuel with
          | 0 => none
          | fuel + 1 => if p < idx then chainFindAux stack name fuel p else none

/-- Walk the parent chain from frame `idx`. -/
def chainFind (stack : List Frame) (name : String) (idx : Nat) : Option (Nat × Val) :=
  chainFindAux stack name idx idx

/-- `Interpreter::lookup` (lines 511-532): chain from the top frame, then
the global table, else `Undefined Variable`. -/
def lookup (ip : Interp) (name : String) : Except String Val :=
  match chainFind ip.stack name (ip.stack.length - 1) with
  | some (_, v) => .ok v
  | none =>
    match envGet ip.global name with
    | some v => .ok v
    | none => .error ("Undefined Variable: " ++ name)

/-- Where a mutable lookup landed: a frame of the stack, or the globals. -/
inductive Loc where
  | frame : Nat → Loc
  | global : Loc

/-- `Interpreter::lookup_mut` (lines 534-557): same traversal as `lookup`,
but the result is a handle (location plus current value) for in-place
mutation. -/
def lookupMut (ip : Interp) (name : String) : Option (Loc × Val) :=
  match chainFind ip.stack name (ip.stack.length - 1) with
  | some (i, v) => some (.frame i, v)
  | none =>
    match envGet ip.global name with
    | some v => some (.global, v)
    | none => none

/-- Writing through a `lookup_mut` handle: replace the binding of `name`
at `loc` by `v`.  The `none` branch of the frame case is unreachable: the
location was produced by `lookupMut`. -/
def writeLoc (ip : Interp) (loc : Loc) (name : String) (v : Val) : Interp :=
  match loc with
  | .global => ⟨envSet ip.global name v, ip.stack⟩
  | .frame i =>
    match ip.stack.get? i with
    | some fr => ⟨ip.global, ip.stack.set i ⟨envSet fr.locals name v, fr.parent⟩⟩
    | none => ip

/-! ### Pure operator dispatch (src/interpreter.rs `eval_bin_op`) -/

/-- Truncation toward zero of a rational, the model of casting the result
of float division to an integer-valued float. -/
def ratTrunc (q : Rat) : Int := if 0 ≤ q then ⌊q⌋ else ⌈q⌉

/-- The remainder of `f64 %`, which truncates toward zero, transported to
the rational model. -/
def ratRem (a b : Rat) : Rat := a - b * (ratTrunc (a / b) : Int)

/-- `str::repeat`. -/
def strRepeat (s : String) (n : Nat) : String := String.join (List.replicate n s)

/-- The message for calling a non-function value (single quotes around the
display form). -/
def notAFunctionMsg (v : Val) : String :=
  String.singleton quoteChar ++ valDisplay v ++ String.singleton quoteChar ++ " is not a function"

/-- `Interpreter::eval_bin_op` (lines 436-509): dispatch on the operator
and the operand constructors, in the arm order of the source.  The result
is wrapped in `Option`: `some` is the `Result` the source returns, and
`none` models the only arms that can abort instead of returning — the
`i64` division and remainder overflow panic.  After the zero test, the
source computes `a / b` (resp. `a % b`), which at
`(a, b) = (i64::MIN, -1)` panics in every build profile (the quotient
`2^63` does not fit in `i64`; Rust aborts rather than wrap here): the
process ends with no result, which at the evaluator level is the same
no-result outcome as divergence.  Add/Sub/Mul overflow is build-profile
dependent (wrap in release) and remains modelled as unbounded. -/
def evalBinOp (op : BinaryOp) (left right : Val) : Option (Except String Val) :=
  match op, left, right with
  | .Add, .Int a, .Int b => some (.ok (.Int (a + b)))
  | .Sub, .Int a, .Int b => some (.ok (.Int (a - b)))
  | .Mul, .Int a, .Int b => some (.ok (.Int (a * b)))
  | .Div, .Int a, .Int b =>
    if b = 0 then some (.error "Division by zero")
    else if a = -(2 ^ 63) ∧ b = -1 then none
    else some (.ok (.Int (Int.tdiv a b)))
  | .Mod, .Int a, .Int b =>
    if b = 0 then some (.error "Modulo by zero")
    else if a = -(2 ^ 63) ∧ b = -1 then none
    else some (.ok (.Int (Int.tmod a b)))
  | .Add, .Float a, .Float b => some (.ok (.Float (a + b)))
  | .Sub, .Float a, .Float b => some (.ok (.Float (a - b)))
  | .Mul, .Float a, .Float b => some (.ok (.Float (a * b)))
  | .Div, .Float a, .Float b =>
    if b = 0 then some (.error "Division by zero") else some (.ok (.Float (a / b)))
  | .Mod, .Float a, .Float b =>
    if b = 0 then some (.error "Modulo by zero") else some (.ok (.Float (ratRem a b)))
  | .Add, .Str a, .Str b => some (.ok (.Str (a ++ b)))
  | .Mul, .Str a, .Int i => some (.ok (.Str (strRepeat a (toUsize i))))
  | .Add, .Array a, .Array b => some (.ok (.Array (a ++ b)))
  | .Eq, .Int a, .Int b => some (.ok (.Bool (a = b)))
  | .Ne, .Int a, .Int b => some (.ok (.Bool (a ≠ b)))
  | .Gt, .Int a, .Int b => some (.ok (.Bool (a > b)))
  | .Ge, .Int a, .Int b => some (.ok (.Bool (a ≥ b)))
  | .Lt, .Int a, .Int b => some (.ok (.Bool (a < b)))
  | .Le, .Int a, .Int b => some (.ok (.Bool (a ≤ b)))
  | .Eq, .Float a, .Float b => some (.ok (.Bool (a = b)))
  | .Ne, .Float a, .Float b => some (.ok (.Bool (a ≠ b)))
  | .Gt, .Float a, .Float b => some (.ok (.Bool (a > b)))
  | .Ge, .Float a, .Float b => some (.ok (.Bool (a ≥ b)))
  | .Lt, .Float a, .Float b => some (.ok (.Bool (a < b)))
  | .Le, .Float a, .Float b => some (.ok (.Bool (a ≤ b)))
  | .Eq, .Bool a, .Bool b => some (.ok (.Bool (a = b)))
  | .Ne, .Bool a, .Bool b => some (.ok (.Bool (a ≠ b)))
  | .And, .Bool a, .Bool b => some (.ok (.Bool (a && b)))
  | .Or, .Bool a, .Bool b => some (.ok (.Bool (a || b)))
  | op, l, r =>
    some (.error ("Cannot apply " ++ binOpDebug op ++ " to " ++ valDebug l ++ " and " ++ valDebug r))

/-- The `Expr::Unary` dispatch (lines 233-242). -/
def evalUnOp (op : UnaryOp) (v : Val) : Except String Val :=
  match op, v with
  | .Neg, .Int i => .ok (.Int (-i))
  | .Neg, .Float f => .ok (.Float (-f))
  | .Not, .Bool b => .ok (.Bool (!b))
  | op, v => .error ("Cannot apply " ++ unOpDebug op ++ " to " ++ valDebug v)

/-! ### Indexed assignment target (src/interpreter.rs lines 147-205)

The source walks a `&mut` chain through the bound value and mutates the
final slot; the pure model reads the bound value, rebuilds it along the
same path with the same checks in the same order, and writes it back. -/

/-- Walk `cur` along `indices` (already cast to `usize`) and replace the
final slot by `v`.  Mirrors the non-final loop (intermediate values must be
in-bounds arrays) and the final arm (array slot, or string position that
only accepts a single-character string). -/
def setPath (cur : Val) (indices : List Nat) (v : Val) : Except String Val :=
  match indices with
  | [] =>
    -- Unreachable: the AST guarantees at least one index (the source would
    -- panic on the slice `[..len - 1]`).
    .error "empty index chain"
  | [idx] =>
    match cur with
    | .Array arr =>
      if idx < arr.length then .ok (.Array (arr.set idx v))
      else .error ("Array index out of bounds: " ++ toString idx)
    | .Str s =>
      if idx < s.data.length then
        match v with
        | .Str nc =>
          match nc.data with
          | [c] => .ok (.Str ⟨s.data.set idx c⟩)
          | cs =>
            .error ("Can only assign single character to string index, got string of length "
              ++ toString cs.length)
        | _ => .error ("Can only assign string to string index, got " ++ valDebug v)
      else .error ("String index out of bounds: " ++ toString idx)
    | _ => .error ("Cannot index into " ++ valDebug cur)
  | idx :: rest =>
    match cur with
    | .Array arr =>
      match arr.get? idx with
      | none => .error ("Array index out of bounds: " ++ toString idx)
      | some elem =>
        match setPath elem rest v with
        | .ok elem2 => .ok (.Array (arr.set idx elem2))
        | .error m => .error m
    | _ => .error ("Cannot index into " ++ valDebug cur)

/-! ### Built-ins (src/interpreter.rs `builtins`) -/

/-- Membership in the built-in registry, checked before user functions. -/
def isBuiltin (name : String) : Bool :=
  name == "print" || name == "println" || name == "sin" || name == "cos" || name == "floor" ||
    name == "abs" || name == "sqrt" || name == "len" || name == "clear" || name == "sleep"

/-- The built-in bodies (lines 559-674), applied to pre-evaluated argument
values.  I/O effects are dropped; `sin`/`cos`/`sqrt` return `Float 0` (see
the header note). -/
def callBuiltin (name : String) (args : List Val) : Except String Val :=
  if name = "print" then .ok .Unit
  else if name = "println" then .ok .Unit
  else if name = "sin" then
    match args with
    | [.Int _] => .ok (.Float 0)
    | [.Float _] => .ok (.Float 0)
    | [a] => .error ("sin() requires a number, got " ++ valDebug a)
    | _ => .error ("sin() takes 1 argument, got " ++ toString args.length)
  else if name = "cos" then
    match args with
    | [.Int _] => .ok (.Float 0)
    | [.Float _] => .ok (.Float 0)
    | [a] => .error ("cos() requires a number, got " ++ valDebug a)
    | _ => .error ("cos() takes 1 argument, got " ++ toString args.length)
  else if name = "floor" then
    match args with
    | [.Int n] => .ok (.Int n)
    | [.Float q] => .ok (.Int ⌊q⌋)
    | [a] => .error ("floor() requires a number, got " ++ valDebug a)
    | _ => .error ("floor() takes 1 argument, got " ++ toString args.length)
  else if name = "abs" then
    match args with
    | [.Int n] => .ok (.Int |n|)
    | [.Float q] => .ok (.Float |q|)
    | [a] => .error ("abs() requires a number, got " ++ valDebug a)
    | _ => .error ("abs() takes 1 argument, got " ++ toString args.length)
  else if name = "sqrt" then
    match args with
    | [.Int _] => .ok (.Float 0)
    | [.Float _] => .ok (.Float 0)
    | [a] => .error ("sqrt() requires a number, got " ++ valDebug a)
    | _ => .error ("sqrt() takes 1 argument, got " ++ toString args.length)
  else if name = "len" then
    match args with
    | [.Array arr] => .ok (.Int arr.length)
    | [.Str s] => .ok (.Int s.data.length)
    | [a] => .error ("len() requires an array or string, got " ++ valDebug a)
    | _ => .error ("len() takes 1 argument, got " ++ toString args.length)
  else if name = "clear" then
    match args with
    | [] => .ok .Unit
    | _ => .error ("clear() takes no arguments, got " ++ toString args.length)
  else if name = "sleep" then
    match args with
    | [.Int _] => .ok .Unit
    | [a] => .error ("sleep() requires an integer (milliseconds), got " ++ valDebug a)
    | _ => .error ("sleep() takes 1 argument, got " ++ toString args.length)
  else .error ("unknown builtin: " ++ name)

/-! ### The evaluator

`EvalF` is the type of the expression evaluator one fuel level down.  All
statement- and list-level machinery is parametrised by it, and the knot is
tied by `evalE`, a plain structural recursion on fuel.  `none` everywhere
means the fuel ran out (the source diverges). -/

/-- The type of the fuelled expression evaluator. -/
abbrev EvalF := Interp → Expr → Option (Interp × Except String Val)

/-- The message of `Stmt::Assignment` when the name is already bound. -/
def varExistsMsg (name : String) (old : Val) : String :=
  "The variable already exists: [" ++ name ++ " = " ++ valDisplay old ++ "]"

/-- The message of `Stmt::Reassignment` when the name is unbound. -/
def noVarMsg (name : String) : String :=
  "The variable [" ++ name ++ "] does not exist"

/-- Bind parameters to argument values in a fresh map, in order
(lines 277-281). -/
def bindParams (params : List String) (args : List Val) : List (String × Val) :=
  List.foldl (fun e pa => envSet e pa.1 pa.2) [] (params.zip args)

/-- Evaluate the index expressions of an indexed-assignment target, casting
each to `usize` and failing on the first non-`Int` (lines 133-146): the
`collect` over `Result` stops at the first error, before evaluating the
remaining indices. -/
def evalIdxList (r : EvalF) (ip : Interp) : List Expr → Option (Interp × Except String (List Nat))
  | [] => some (ip, .ok [])
  | e :: rest =>
    match r ip e with
    | none => none
    | some (ip1, .error m) => some (ip1, .error m)
    | some (ip1, .ok v) =>
      match v with
      | .Int n =>
        match evalIdxList r ip1 rest with
        | none => none
        | some (ip2, .error m) => some (ip2, .error m)
        | some (ip2, .ok idxs) => some (ip2, .ok (toUsize n :: idxs))
      | v => some (ip1, .error ("Array index must be an integer, got " ++ valDebug v))

/-- `Interpreter::exec_stmt` (lines 85-215), parametrised by the expression
evaluator `r`. -/
def execStmt (r : EvalF) (ip : Interp) (stmt : Stmt) : Option (Interp × Except String Flow) :=
  match stmt with
  | .Function name params body =>
    some (⟨envSet ip.global name (.Function params body), ip.stack⟩, .ok (.cont .Unit))
  | .Return e =>
    match r ip e with
    | none => none
    | some (ip1, .error m) => some (ip1, .error m)
    | some (ip1, .ok v) => some (ip1, .ok (.ret v))
  | .Assignment name e =>
    match r ip e with
    | none => none
    | some (ip1, .error m) => some (ip1, .error m)
    | some (ip1, .ok v) =>
      match lookupMut ip1 name with
      | some (_, old) => some (ip1, .error (varExistsMsg name old))
      | none =>
        some (⟨ip1.global, updateLast ip1.stack (fun fr => ⟨envSet fr.locals name v, fr.parent⟩)⟩,
          .ok (.cont .Unit))
  | .Reassignment target e =>
    match r ip e with
    | none => none
    | some (ip1, .error m) => some (ip1, .error m)
    | some (ip1, .ok v) =>
      match target with
      | .Ident name =>
        match lookupMut ip1 name with
        | some (loc, _) => some (writeLoc ip1 loc name v, .ok (.cont .Unit))
        | none => some (ip1, .error (noVarMsg name))
      | .ArrayAccess name indices =>
        match evalIdxList r ip1 indices with
        | none => none
        | some (ip2, .error m) => some (ip2, .error m)
        | some (ip2, .ok idxs) =>
          match lookupMut ip2 name with
          | none => some (ip2, .error (noVarMsg name))
          | some (loc, cur) =>
            match setPath cur idxs v with
            | .error m => some (ip2, .error m)
            | .ok newv => some (writeLoc ip2 loc name newv, .ok (.cont .Unit))
  | .Expr e =>
    match r ip e with
    | none => none
    | some (ip1, .error m) => some (ip1, .error m)
    | some (ip1, .ok v) => some (ip1, .ok (.cont v))

/-- Execute a statement sequence, mirroring the common loop
`let mut res = Unit; for stmt in body { match exec_stmt ... }`: `res`
tracks the last `Continue` value, and a `Return` stops the sequence at
once, leaving the remaining statements unexecuted. -/
def runBody (r : EvalF) (ip : Interp) (res : Val) : List Stmt → Option (Interp × Except String Flow)
  | [] => some (ip, .ok (.cont res))
  | s :: rest =>
    match execStmt r ip s with
    | none => none
    | some (ip1, .error m) => some (ip1, .error m)
    | some (ip1, .ok (.ret v)) => some (ip1, .ok (.ret v))
    | some (ip1, .ok (.cont v)) => runBody r ip1 v rest

/-- Evaluate an expression list left to right, collecting the values and
stopping at the first error (the `collect::<Result<Vec<Val>, _>>` used for
array literals and call arguments). -/
def evalList (r : EvalF) (ip : Interp) : List Expr → Option (Interp × Except String (List Val))
  | [] => some (ip, .ok [])
  | e :: rest =>
    match r ip e with
    | none => none
    | some (ip1, .error m) => some (ip1, .error m)
    | some (ip1, .ok v) =>
      match evalList r ip1 rest with
      | none => none
      | some (ip2, .error m) => some (ip2, .error m)
      | some (ip2, .ok vs) => some (ip2, .ok (v :: vs))

/-- The `Expr::ArrayAccess` read walk (lines 397-432): indices are
evaluated one at a time while walking the value.  An intermediate `Str`
returns the indexed character immediately, leaving the remaining index
expressions unevaluated, exactly as the early return of the source does. -/
def walkAccess (r : EvalF) (ip : Interp) (cur : Val) :
    List Expr → Option (Interp × Except String Val)
  | [] => some (ip, .ok cur)
  | e :: rest =>
    match r ip e with
    | none => none
    | some (ip1, .error m) => some (ip1, .error m)
    | some (ip1, .ok idxv) =>
      match idxv with
      | .Int n =>
        match cur with
        | .Array arr =>
          match arr.get? (toUsize n) with
          | none => some (ip1, .error ("Array index out of bounds: " ++ toString (toUsize n)))
          | some elem => walkAccess r ip1 elem rest
        | .Str s =>
          match s.data.get? (toUsize n) with
          | none => some (ip1, .error ("String index out of bounds: " ++ toString (toUsize n)))
          | some c => some (ip1, .ok (.Str (String.singleton c)))
        | _ => some (ip1, .error ("Cannot index into " ++ valDebug cur))
      | _ => some (ip1, .error ("Array index must be an integer, got " ++ valDebug idxv))

/-- The half-open integer range `sti..eni` of a `for` loop. -/
def intRange (sti eni : Int) : List Int :=
  (List.range (eni - sti).toNat).map (fun k => sti + k)

/-- The `for i in sti..eni` iteration (lines 367-380): each round rebinds
the loop variable in the top (loop) frame and runs the body; `some v` in
the result marks an early `Return`.  The pops happen at the caller, as in
the source. -/
def forIter (r : EvalF) (ip : Interp) (var : String) :
    List Int → List Stmt → Option (Interp × Except String (Option Val))
  | [], _ => some (ip, .ok none)
  | i :: rest, body =>
    let ip1 : Interp :=
      ⟨ip.global, updateLast ip.stack (fun fr => ⟨envSet fr.locals var (.Int i), fr.parent⟩)⟩
    match runBody r ip1 .Unit body with
    | none => none
    | some (ip2, .error m) => some (ip2, .error m)
    | some (ip2, .ok (.ret v)) => some (ip2, .ok (some v))
    | some (ip2, .ok (.cont _)) => forIter r ip2 var rest body

/-- One unfolding of `Interpreter::eval_expr` (lines 217-434): the body of
the match, with every recursive entry into `eval_expr` going through `r`
(the evaluator one fuel level down). -/
def evalExprCore (r : EvalF) (ip : Interp) : Expr → Option (Interp × Except String Val)
  | .Int i => some (ip, .ok (.Int i))
  | .Bool b => some (ip, .ok (.Bool b))
  | .Float f => some (ip, .ok (.Float f))
  | .Str s => some (ip, .ok (.Str s))
  | .Array es =>
    match evalList r ip es with
    | none => none
    | some (ip1, .error m) => some (ip1, .error m)
    | some (ip1, .ok vs) => some (ip1, .ok (.Array vs))
  | .Var name => some (ip, lookup ip name)
  | .Unary op ex =>
    match r ip ex with
    | none => none
    | some (ip1, .error m) => some (ip1, .error m)
    | some (ip1, .ok v) => some (ip1, evalUnOp op v)
  | .Binary op lhs rhs =>
    match r ip lhs with
    | none => none
    | some (ip1, .error m) => some (ip1, .error m)
    | some (ip1, .ok l) =>
      match r ip1 rhs with
      | none => none
      | some (ip2, .error m) => some (ip2, .error m)
      | some (ip2, .ok rv) =>
        match evalBinOp op l rv with
        | none => none
        | some res => some (ip2, res)
  | .Call name args =>
    if isBuiltin name then
      match evalList r ip args with
      | none => none
      | some (ip1, .error m) => some (ip1, .error m)
      | some (ip1, .ok vs) => some (ip1, callBuiltin name vs)
    else
      match lookup ip name with
      | .error m => some (ip, .error m)
      | .ok fv =>
        match fv with
        | .Function params body =>
          match evalList r ip args with
          | none => none
          | some (ip1, .error m) => some (ip1, .error m)
          | some (ip1, .ok argVals) =>
            if params.length = argVals.length then
              match runBody r ⟨ip1.global, ip1.stack ++ [⟨bindParams params argVals, none⟩]⟩
                  .Unit body with
              | none => none
              | some (ip2, .error m) => some (ip2, .error m)
              | some (ip2, .ok (.ret v)) => some (⟨ip2.global, ip2.stack.dropLast⟩, .ok v)
              | some (ip2, .ok (.cont v)) => some (⟨ip2.global, ip2.stack.dropLast⟩, .ok v)
            else
              some (ip1, .error ("Function " ++ name ++ " expects " ++ toString params.length
                ++ " arguments, got " ++ toString argVals.length))
        | _ => some (ip, .error (notAFunctionMsg fv))
  | .If cond t el =>
    match r ip cond with
    | none => none
    | some (ip1, .error m) => some (ip1, .error m)
    | some (ip1, .ok cv) =>
      match cv with
      | .Bool b =>
        match runBody r ip1 .Unit (if b then t else el) with
        | none => none
        | some (ip2, .error m) => some (ip2, .error m)
        | some (ip2, .ok (.ret v)) => some (ip2, .ok v)
        | some (ip2, .ok (.cont v)) => some (ip2, .ok v)
      | _ => some (ip1, .error ("Condition Must be a Boolean, got " ++ valDebug cv))
  | .While cond body =>
    match r ip cond with
    | none => none
    | some (ip1, .error m) => some (ip1, .error m)
    | some (ip1, .ok cv) =>
      match cv with
      | .Bool b =>
        if b then
          match runBody r ip1 .Unit body with
          | none => none
          | some (ip2, .error m) => some (ip2, .error m)
          | some (ip2, .ok (.ret v)) => some (ip2, .ok v)
          | some (ip2, .ok (.cont _)) => r ip2 (.While cond body)
        else some (ip1, .ok .Unit)
      | _ => some (ip1, .error ("While condition Must be a Boolean, got " ++ valDebug cv))
  | .For var start stop body =>
    match r ip start with
    | none => none
    | some (ip1, .error m) => some (ip1, .error m)
    | some (ip1, .ok sv) =>
      match r ip1 stop with
      | none => none
      | some (ip2, .error m) => some (ip2, .error m)
      | some (ip2, .ok ev) =>
        match sv, ev with
        | .Int sti, .Int eni =>
          match forIter r
              ⟨ip2.global, ip2.stack ++ [⟨[], some (ip2.stack.length - 1)⟩]⟩
              var (intRange sti eni) body with
          | none => none
          | some (ip3, .error m) => some (ip3, .error m)
          | some (ip3, .ok (some v)) => some (⟨ip3.global, ip3.stack.dropLast⟩, .ok v)
          | some (ip3, .ok none) => some (⟨ip3.global, ip3.stack.dropLast⟩, .ok .Unit)
        | sv, ev =>
          some (ip2, .error ("The range must evaluate to ineteger bounds, got "
            ++ valDisplay sv ++ ".." ++ valDisplay ev))
  | .Block stmts =>
    match runBody r ip .Unit stmts with
    | none => none
    | some (ip1, .error m) => some (ip1, .error m)
    | some (ip1, .ok (.ret v)) => some (ip1, .ok v)
    | some (ip1, .ok (.cont v)) => some (ip1, .ok v)
  | .ArrayAccess name indices =>
    match lookup ip name with
    | .error m => some (ip, .error m)
    | .ok v => walkAccess r ip v indices

/-- The fuelled evaluator: `evalE (fuel + 1)` is one unfolding of
`eval_expr` with recursive calls at fuel `fuel`; at fuel 0 the run is cut
off (`none` = the source diverges past this depth). -/
def evalE : Nat → EvalF
  | 0 => fun _ _ => none
  | fuel + 1 => fun ip e => evalExprCore (evalE fuel) ip e

/-- `Interpreter::run` (lines 74-83) started on a fresh interpreter: the
program value is the value of the last statement, or the argument of the first
top-level `Return` (which `runBody` surfaces as `Flow.ret`). -/
def runProg (fuel : Nat) (prog : List Stmt) : Option (Except String Val) :=
  match runBody (evalE fuel) initInterp .Unit prog with
  | none => none
  | some (_, .error m) => some (.error m)
  | some (_, .ok (.cont v)) => some (.ok v)
  | some (_, .ok (.ret v)) => some (.ok v)

/-! ### Derived notions used by the claims -/

/-- The spec-side notion of resolvability (spec §4.2 "Scope resolution"):
`name` is reachable from the innermost frame through the parent chain, or
bound in the global table.  Used to compare the wording the spec gives for
the `Declare` existence check against `lookup_mut` from the source. -/
def resolvableSpec (ip : Interp) (name : String) : Prop :=
  (chainFind ip.stack name (ip.stack.length - 1)).isSome = true ∨
    (envGet ip.global name).isSome = true

/-- Stack-length preservation of an expression evaluator on success: the
induction invariant behind claim C10. -/
def PresE (r : EvalF) : Prop :=
  ∀ ip e ip1 v, r ip e = some (ip1, Except.ok v) → ip1.stack.length = ip.stack.length

/-- The program of the C1 counterexample:
`fn g() { if (true) { return 1 } return 2 }  g()`. -/
def c1Prog : List Stmt :=
  [ Stmt.Function "g" []
      [ Stmt.Expr (.If (.Bool true) [Stmt.Return (.Int 1)] []),
        Stmt.Return (.Int 2) ],
    Stmt.Expr (.Call "g" []) ]

/-! ## Lemmas about the environment and stack primitives -/

theorem envGet_envSet_self (e : List (String × Val)) (k : String) (v : Val) :
    envGet (envSet e k v) k = some v := by
  induction e with
  | nil => simp [envSet, envGet]
  | cons h t ih =>
    obtain ⟨k2, v2⟩ := h
    by_cases hk : k2 = k
    · simp [envSet, hk, envGet]
    · simp [envSet, hk, envGet, ih]

theorem envGet_envSet_ne (e : List (String × Val)) (k k2 : String) (v : Val) (h : k ≠ k2) :
    envGet (envSet e k v) k2 = envGet e k2 := by
  induction e with
  | nil => simp [envSet, envGet, fun hh => h hh]
  | cons hd t ih =>
    obtain ⟨k3, v3⟩ := hd
    by_cases hk : k3 = k
    · subst hk
      simp [envSet, envGet, fun hh => h hh]
    · simp [envSet, hk, envGet, ih]

theorem updateLast_concat (s : List Frame) (a : Frame) (f : Frame → Frame) :
    updateLast (s ++ [a]) f = s ++ [f a] := by
  induction s with
  | nil => rfl
  | cons h t ih =>
    cases t with
    | nil => rfl
    | cons h2 t2 => simpa [updateLast] using ih

theorem updateLast_length (s : List Frame) (f : Frame → Frame) :
    (updateLast s f).length = s.length := by
  induction s with
  | nil => rfl
  | cons h t ih =>
    cases t with
    | nil => rfl
    | cons h2 t2 => simpa [updateLast] using ih

theorem get?_append_lt (s t : List Frame) (i : Nat) (h : i < s.length) :
    (s ++ t).get? i = s.get? i := by
  induction s generalizing i with
  | nil => simp at h
  | cons hd tl ih =>
    cases i with
    | zero => rfl
    | succ j =>
      simp only [List.cons_append, List.get?]
      exact ih j (by simpa using h)

theorem get?_append_add (s t : List Frame) (k : Nat) :
    (s ++ t).get? (s.length + k) = t.get? k := by
  induction s with
  | nil => simp
  | cons hd tl ih =>
    simpa [List.cons_append, List.length_cons, Nat.succ_add, List.get?] using ih

theorem chainFindAux_append (s t : List Frame) (name : String) (fuel p : Nat)
    (hp : p < s.length) :
    chainFindAux (s ++ t) name fuel p = chainFindAux s name fuel p := by
  induction fuel generalizing p with
  | zero =>
    rw [chainFindAux, chainFindAux, get?_append_lt s t p hp]
  | succ fuel ih =>
    rw [chainFindAux, chainFindAux, get?_append_lt s t p hp]
    cases hsp : s.get? p with
    | none => rfl
    | some fr =>
      cases hg : envGet fr.locals name with
      | some v => simp [hg]
      | none =>
        cases hpar : fr.parent with
        | none => simp [hg, hpar]
        | some q =>
          by_cases hq : q < p
          · simp only [hg, hpar, hq, if_true]
            exact ih q (Nat.lt_trans hq hp)
          · simp [hg, hpar, hq]



/-! ## Stack-length preservation on success (infrastructure for C10) -/

theorem writeLoc_stack_length (ip : Interp) (loc : Loc) (name : String) (v : Val) :
    (writeLoc ip loc name v).stack.length = ip.stack.length := by
  cases loc with
  | global => rfl
  | frame i =>
    cases h : ip.stack.get? i with
    | none => simp only [writeLoc, h]
    | some fr =>
      simp only [writeLoc, h]
      simp

theorem evalList_pres {r : EvalF} (hr : PresE r) :
    ∀ es ip ip1 vs, evalList r ip es = some (ip1, .ok vs) →
      ip1.stack.length = ip.stack.length := by
  intro es
  induction es with
  | nil =>
    intro ip ip1 vs h
    simp only [evalList, Option.some.injEq, Prod.mk.injEq] at h
    obtain ⟨rfl, -⟩ := h
    rfl
  | cons e rest ih =>
    intro ip ip1 vs h
    simp only [evalList] at h
    split at h
    · exact absurd h (by simp)
    · exact absurd h (by simp)
    · rename_i ipa v hre
      split at h
      · exact absurd h (by simp)
      · exact absurd h (by simp)
      · rename_i ipb vs2 hrest
        simp only [Option.some.injEq, Prod.mk.injEq] at h
        obtain ⟨rfl, -⟩ := h
        exact (ih ipa ipb vs2 hrest).trans (hr ip e ipa v hre)

theorem evalIdxList_pres {r : EvalF} (hr : PresE r) :
    ∀ es ip ip1 idxs, evalIdxList r ip es = some (ip1, .ok idxs) →
      ip1.stack.length = ip.stack.length := by
  intro es
  induction es with
  | nil =>
    intro ip ip1 idxs h
    simp only [evalIdxList, Option.some.injEq, Prod.mk.injEq] at h
    obtain ⟨rfl, -⟩ := h
    rfl
  | cons e rest ih =>
    intro ip ip1 idxs h
    simp only [evalIdxList] at h
    split at h
    · exact absurd h (by simp)
    · exact absurd h (by simp)
    · rename_i ipa v hre
      split at h
      · rename_i n
        split at h
        · exact absurd h (by simp)
        · exact absurd h (by simp)
        · rename_i ipb idxs2 hrest
          simp only [Option.some.injEq, Prod.mk.injEq] at h
          obtain ⟨rfl, -⟩ := h
          exact (ih ipa ipb idxs2 hrest).trans (hr ip e ipa (.Int n) hre)
      · exact absurd h (by simp)

theorem execStmt_pres {r : EvalF} (hr : PresE r) :
    ∀ ip s ip1 fl, execStmt r ip s = some (ip1, .ok fl) →
      ip1.stack.length = ip.stack.length := by
  intro ip s ip1 fl h
  cases s with
  | Function name params body =>
    simp only [execStmt, Option.some.injEq, Prod.mk.injEq] at h
    obtain ⟨rfl, -⟩ := h
    rfl
  | Return e =>
    simp only [execStmt] at h
    split at h
    · exact absurd h (by simp)
    · exact absurd h (by simp)
    · rename_i ipa v hre
      simp only [Option.some.injEq, Prod.mk.injEq] at h
      obtain ⟨rfl, -⟩ := h
      exact hr ip e ipa v hre
  | Assignment name e =>
    simp only [execStmt] at h
    split at h
    · exact absurd h (by simp)
    · exact absurd h (by simp)
    · rename_i ipa v hre
      split at h
      · exact absurd h (by simp)
      · simp only [Option.some.injEq, Prod.mk.injEq] at h
        obtain ⟨rfl, -⟩ := h
        exact (updateLast_length ipa.stack _).trans (hr ip e ipa v hre)
  | Reassignment target e =>
    cases target with
    | Ident name =>
      simp only [execStmt] at h
      split at h
      · exact absurd h (by simp)
      · exact absurd h (by simp)
      · rename_i ipa v hre
        split at h
        · rename_i loc old hloc
          simp only [Option.some.injEq, Prod.mk.injEq] at h
          obtain ⟨rfl, -⟩ := h
          exact (writeLoc_stack_length ipa loc name v).trans (hr ip e ipa v hre)
        · exact absurd h (by simp)
    | ArrayAccess name indices =>
      simp only [execStmt] at h
      split at h
      · exact absurd h (by simp)
      · exact absurd h (by simp)
      · rename_i ipa v hre
        split at h
        · exact absurd h (by simp)
        · exact absurd h (by simp)
        · rename_i ipb idxs hidx
          split at h
          · exact absurd h (by simp)
          · rename_i loc cur hloc
            split at h
            · exact absurd h (by simp)
            · rename_i newv hset
              simp only [Option.some.injEq, Prod.mk.injEq] at h
              obtain ⟨rfl, -⟩ := h
              exact (writeLoc_stack_length ipb loc name newv).trans
                ((evalIdxList_pres hr indices ipa ipb idxs hidx).trans (hr ip e ipa v hre))
  | Expr e =>
    simp only [execStmt] at h
    split at h
    · exact absurd h (by simp)
    · exact absurd h (by simp)
    · rename_i ipa v hre
      simp only [Option.some.injEq, Prod.mk.injEq] at h
      obtain ⟨rfl, -⟩ := h
      exact hr ip e ipa v hre

theorem runBody_pres {r : EvalF} (hr : PresE r) :
    ∀ body ip res ip1 fl, runBody r ip res body = some (ip1, .ok fl) →
      ip1.stack.length = ip.stack.length := by
  intro body
  induction body with
  | nil =>
    intro ip res ip1 fl h
    simp only [runBody, Option.some.injEq, Prod.mk.injEq] at h
    obtain ⟨rfl, -⟩ := h
    rfl
  | cons s rest ih =>
    intro ip res ip1 fl h
    simp only [runBody] at h
    split at h
    · exact absurd h (by simp)
    · exact absurd h (by simp)
    · rename_i ipa v hs
      simp only [Option.some.injEq, Prod.mk.injEq] at h
      obtain ⟨rfl, -⟩ := h
      exact execStmt_pres hr ip s ipa (.ret v) hs
    · rename_i ipa v hs
      exact (ih ipa v ip1 fl h).trans (execStmt_pres hr ip s ipa (.cont v) hs)

theorem walkAccess_pres {r : EvalF} (hr : PresE r) :
    ∀ idxs ip cur ip1 v, walkAccess r ip cur idxs = some (ip1, .ok v) →
      ip1.stack.length = ip.stack.length := by
  intro idxs
  induction idxs with
  | nil =>
    intro ip cur ip1 v h
    simp only [walkAccess, Option.some.injEq, Prod.mk.injEq] at h
    obtain ⟨rfl, -⟩ := h
    rfl
  | cons e rest ih =>
    intro ip cur ip1 v h
    simp only [walkAccess] at h
    split at h
    · exact absurd h (by simp)
    · exact absurd h (by simp)
    · rename_i ipa idxv hre
      split at h
      · rename_i n
        split at h
        · rename_i arr
          split at h
          · exact absurd h (by simp)
          · rename_i elem hget
            exact (ih ipa elem ip1 v h).trans (hr ip e ipa (.Int n) hre)
        · rename_i s
          split at h
          · exact absurd h (by simp)
          · rename_i c hget
            simp only [Option.some.injEq, Prod.mk.injEq] at h
            obtain ⟨rfl, -⟩ := h
            exact hr ip e ipa (.Int n) hre
        · exact absurd h (by simp)
      · exact absurd h (by simp)

theorem forIter_pres {r : EvalF} (hr : PresE r) :
    ∀ range ip var body ip1 ov, forIter r ip var range body = some (ip1, .ok ov) →
      ip1.stack.length = ip.stack.length := by
  intro range
  induction range with
  | nil =>
    intro ip var body ip1 ov h
    simp only [forIter, Option.some.injEq, Prod.mk.injEq] at h
    obtain ⟨rfl, -⟩ := h
    rfl
  | cons i rest ih =>
    intro ip var body ip1 ov h
    simp only [forIter] at h
    split at h
    · exact absurd h (by simp)
    · exact absurd h (by simp)
    · rename_i ipa v hb
      simp only [Option.some.injEq, Prod.mk.injEq] at h
      obtain ⟨rfl, -⟩ := h
      exact (runBody_pres hr body _ .Unit ipa (.ret v) hb).trans
        (updateLast_length ip.stack _)
    · rename_i ipa v hb
      exact (ih ipa var body ip1 ov h).trans
        ((runBody_pres hr body _ .Unit ipa (.cont v) hb).trans (updateLast_length ip.stack _))

theorem evalExprCore_pres {r : EvalF} (hr : PresE r) : PresE (evalExprCore r) := by
  intro ip e ip1 v h
  cases e with
  | Int i =>
    simp only [evalExprCore, Option.some.injEq, Prod.mk.injEq] at h
    obtain ⟨rfl, -⟩ := h
    rfl
  | Bool b =>
    simp only [evalExprCore, Option.some.injEq, Prod.mk.injEq] at h
    obtain ⟨rfl, -⟩ := h
    rfl
  | Float q =>
    simp only [evalExprCore, Option.some.injEq, Prod.mk.injEq] at h
    obtain ⟨rfl, -⟩ := h
    rfl
  | Str s =>
    simp only [evalExprCore, Option.some.injEq, Prod.mk.injEq] at h
    obtain ⟨rfl, -⟩ := h
    rfl
  | Array es =>
    simp only [evalExprCore] at h
    split at h
    · exact absurd h (by simp)
    · exact absurd h (by simp)
    · rename_i ipa vs hes
      simp only [Option.some.injEq, Prod.mk.injEq] at h
      obtain ⟨rfl, -⟩ := h
      exact evalList_pres hr es ip ipa vs hes
  | Var name =>
    simp only [evalExprCore, Option.some.injEq, Prod.mk.injEq] at h
    obtain ⟨rfl, -⟩ := h
    rfl
  | Unary op ex =>
    simp only [evalExprCore] at h
    split at h
    · exact absurd h (by simp)
    · exact absurd h (by simp)
    · rename_i ipa w hre
      simp only [Option.some.injEq, Prod.mk.injEq] at h
      obtain ⟨rfl, -⟩ := h
      exact hr ip ex ipa w hre
  | Binary op lhs rhs =>
    simp only [evalExprCore] at h
    split at h
    · exact absurd h (by simp)
    · exact absurd h (by simp)
    · rename_i ipa l hl
      split at h
      · exact absurd h (by simp)
      · exact absurd h (by simp)
      · rename_i ipb rv hrv
        split at h
        · exact absurd h (by simp)
        · rename_i res hres
          simp only [Option.some.injEq, Prod.mk.injEq] at h
          obtain ⟨rfl, -⟩ := h
          exact (hr ipa rhs ipb rv hrv).trans (hr ip lhs ipa l hl)
  | Call name args =>
    simp only [evalExprCore] at h
    split at h
    · -- builtin path
      split at h
      · exact absurd h (by simp)
      · exact absurd h (by simp)
      · rename_i ipa vs hargs
        simp only [Option.some.injEq, Prod.mk.injEq] at h
        obtain ⟨rfl, -⟩ := h
        exact evalList_pres hr args ip ipa vs hargs
    · -- user-function path
      split at h
      · -- lookup error
        simp only [Option.some.injEq, Prod.mk.injEq] at h
        obtain ⟨rfl, -⟩ := h
        rfl
      · rename_i fv hfv
        split at h
        · rename_i params body
          split at h
          · exact absurd h (by simp)
          · exact absurd h (by simp)
          · rename_i ipa argVals hargs
            split at h
            · rename_i hlen
              split at h
              · exact absurd h (by simp)
              · rename_i ipb m hb
                exact absurd h (by simp)
              · rename_i ipb w hb
                simp only [Option.some.injEq, Prod.mk.injEq] at h
                obtain ⟨rfl, -⟩ := h
                have hpush := runBody_pres hr body
                  ⟨ipa.global, ipa.stack ++ [⟨bindParams params argVals, none⟩]⟩ .Unit ipb (.ret w) hb
                have hlen2 := evalList_pres hr args ip ipa argVals hargs
                simp only [List.length_append, List.length_cons, List.length_nil] at hpush
                simp only [List.length_dropLast]
                omega
              · rename_i ipb w hb
                simp only [Option.some.injEq, Prod.mk.injEq] at h
                obtain ⟨rfl, -⟩ := h
                have hpush := runBody_pres hr body
                  ⟨ipa.global, ipa.stack ++ [⟨bindParams params argVals, none⟩]⟩ .Unit ipb (.cont w) hb
                have hlen2 := evalList_pres hr args ip ipa argVals hargs
                simp only [List.length_append, List.length_cons, List.length_nil] at hpush
                simp only [List.length_dropLast]
                omega
            · exact absurd h (by simp)
        · exact absurd h (by simp)
  | If cond t el =>
    simp only [evalExprCore] at h
    split at h
    · exact absurd h (by simp)
    · exact absurd h (by simp)
    · rename_i ipa cv hc
      split at h
      · rename_i b
        split at h
        · exact absurd h (by simp)
        · exact absurd h (by simp)
        · rename_i ipb w hb
          simp only [Option.some.injEq, Prod.mk.injEq] at h
          obtain ⟨rfl, -⟩ := h
          exact (runBody_pres hr _ ipa .Unit ipb (.ret w) hb).trans (hr ip cond ipa (.Bool b) hc)
        · rename_i ipb w hb
          simp only [Option.some.injEq, Prod.mk.injEq] at h
          obtain ⟨rfl, -⟩ := h
          exact (runBody_pres hr _ ipa .Unit ipb (.cont w) hb).trans (hr ip cond ipa (.Bool b) hc)
      · exact absurd h (by simp)
  | While cond body =>
    simp only [evalExprCore] at h
    split at h
    · exact absurd h (by simp)
    · exact absurd h (by simp)
    · rename_i ipa cv hc
      split at h
      · rename_i b
        split at h
        · -- b = true
          split at h
          · exact absurd h (by simp)
          · exact absurd h (by simp)
          · rename_i ipb w hb
            simp only [Option.some.injEq, Prod.mk.injEq] at h
            obtain ⟨rfl, -⟩ := h
            exact (runBody_pres hr body ipa .Unit ipb (.ret w) hb).trans
              (hr ip cond ipa (.Bool b) hc)
          · rename_i ipb w hb
            exact ((hr ipb _ ip1 v h).trans
              (runBody_pres hr body ipa .Unit ipb (.cont w) hb)).trans
              (hr ip cond ipa (.Bool b) hc)
        · -- b = false
          simp only [Option.some.injEq, Prod.mk.injEq] at h
          obtain ⟨rfl, -⟩ := h
          exact hr ip cond ipa (.Bool b) hc
      · exact absurd h (by simp)
  | For var start stop body =>
    simp only [evalExprCore] at h
    split at h
    · exact absurd h (by simp)
    · exact absurd h (by simp)
    · rename_i ipa sv hs
      split at h
      · exact absurd h (by simp)
      · exact absurd h (by simp)
      · rename_i ipb ev he
        split at h
        · rename_i sti eni
          split at h
          · exact absurd h (by simp)
          · exact absurd h (by simp)
          · rename_i ipc w hf
            simp only [Option.some.injEq, Prod.mk.injEq] at h
            obtain ⟨rfl, -⟩ := h
            have hiter := forIter_pres hr (intRange sti eni)
              ⟨ipb.global, ipb.stack ++ [⟨[], some (ipb.stack.length - 1)⟩]⟩ var body ipc (some w) hf
            have h1 := hr ip start ipa (.Int sti) hs
            have h2 := hr ipa stop ipb (.Int eni) he
            simp only [List.length_append, List.length_cons, List.length_nil] at hiter
            simp only [List.length_dropLast]
            omega
          · rename_i ipc hf
            simp only [Option.some.injEq, Prod.mk.injEq] at h
            obtain ⟨rfl, -⟩ := h
            have hiter := forIter_pres hr (intRange sti eni)
              ⟨ipb.global, ipb.stack ++ [⟨[], some (ipb.stack.length - 1)⟩]⟩ var body ipc none hf
            have h1 := hr ip start ipa (.Int sti) hs
            have h2 := hr ipa stop ipb (.Int eni) he
            simp only [List.length_append, List.length_cons, List.length_nil] at hiter
            simp only [List.length_dropLast]
            omega
        · exact absurd h (by simp)
  | Block stmts =>
    simp only [evalExprCore] at h
    split at h
    · exact absurd h (by simp)
    · exact absurd h (by simp)
    · rename_i ipa w hb
      simp only [Option.some.injEq, Prod.mk.injEq] at h
      obtain ⟨rfl, -⟩ := h
      exact runBody_pres hr stmts ip .Unit ipa (.ret w) hb
    · rename_i ipa w hb
      simp only [Option.some.injEq, Prod.mk.injEq] at h
      obtain ⟨rfl, -⟩ := h
      exact runBody_pres hr stmts ip .Unit ipa (.cont w) hb
  | ArrayAccess name indices =>
    simp only [evalExprCore] at h
    split at h
    · simp only [Option.some.injEq, Prod.mk.injEq] at h
      obtain ⟨rfl, -⟩ := h
      rfl
    · rename_i w hw
      exact walkAccess_pres hr indices ip w ip1 v h

theorem evalE_pres : ∀ fuel, PresE (evalE fuel) := by
  intro fuel
  induction fuel with
  | zero =>
    intro ip e ip1 v h
    exact absurd h (by simp [evalE])
  | succ fuel ih =>
    intro ip e ip1 v h
    exact evalExprCore_pres ih ip e ip1 v h

/-! ## Small arithmetic facts about the usize cast -/

theorem toUsize_of_nonneg (n : Int) (h0 : 0 ≤ n) (h1 : n < 2 ^ 63) :
    toUsize n = n.toNat := by
  unfold toUsize
  omega

theorem toUsize_of_neg (n : Int) (h0 : -(2 ^ 63) ≤ n) (h1 : n < 0) :
    toUsize n = (n + 2 ^ 64).toNat ∧ 2 ^ 63 ≤ toUsize n := by
  unfold toUsize
  omega

/-- One step of the fuelled evaluator. -/
theorem evalE_succ (f : Nat) (ip : Interp) (e : Expr) :
    evalE (f + 1) ip e = evalExprCore (evalE f) ip e := rfl

/-! ## Claim theorems -/

/-- The `Div Int,Int` arm of the dispatch, read off the definition
(`none` is the overflow panic). -/
theorem evalBinOp_div_int (a b : Int) :
    evalBinOp .Div (.Int a) (.Int b)
      = if b = 0 then some (.error "Division by zero")
        else if a = -(2 ^ 63) ∧ b = -1 then none
        else some (.ok (.Int (Int.tdiv a b))) := rfl

/-- The `Mod Int,Int` arm of the dispatch. -/
theorem evalBinOp_mod_int (a b : Int) :
    evalBinOp .Mod (.Int a) (.Int b)
      = if b = 0 then some (.error "Modulo by zero")
        else if a = -(2 ^ 63) ∧ b = -1 then none
        else some (.ok (.Int (Int.tmod a b))) := rfl

/-- The `Div Float,Float` arm of the dispatch. -/
theorem evalBinOp_div_float (x y : Rat) :
    evalBinOp .Div (.Float x) (.Float y)
      = if y = 0 then some (.error "Division by zero") else some (.ok (.Float (x / y))) := rfl

/-- The `Mod Float,Float` arm of the dispatch. -/
theorem evalBinOp_mod_float (x y : Rat) :
    evalBinOp .Mod (.Float x) (.Float y)
      = if y = 0 then some (.error "Modulo by zero") else some (.ok (.Float (ratRem x y))) := rfl

/-- C8 counterexample: at the operand pair `(i64::MIN, -1)` — reachable
in the language, e.g. `(0 - 9223372036854775807 - 1) / (0 - 1)` — the
divisor is nonzero, yet the source panics with a division overflow
instead of returning: the outcome is the no-result value, neither the
`Division by zero` error nor an Int quotient, refuting the claim as
stated. -/
theorem c8_overflow_counterexample :
    evalBinOp .Div (.Int (-(2 ^ 63))) (.Int (-1)) = none ∧
    (-1 : Int) ≠ 0 ∧
    evalBinOp .Div (.Int (-(2 ^ 63))) (.Int (-1))
      ≠ some (.error "Division by zero") ∧
    evalBinOp .Div (.Int (-(2 ^ 63))) (.Int (-1))
      ≠ some (.ok (.Int (Int.tdiv (-(2 ^ 63)) (-1)))) := by
  have h : evalBinOp .Div (.Int (-(2 ^ 63))) (.Int (-1)) = none := by
    rw [evalBinOp_div_int, if_neg (by decide), if_pos ⟨rfl, rfl⟩]
  refine ⟨h, by decide, ?_, ?_⟩ <;> (rw [h]; simp)

/-- C8 (amended): for Int operands, `Div` (resp. `Mod`) fails with the
message `Division by zero` (resp. `Modulo by zero`) exactly when the
divisor is 0; for a nonzero divisor it produces the truncated Int
quotient (resp. remainder) except at the single overflow pair
`(i64::MIN, -1)`, where the source panics and no result is produced;
likewise float division/modulo by 0.0 (modelled on rationals) is an
error. -/
theorem c8_div_mod_zero :
    (∀ a b : Int,
      (evalBinOp .Div (.Int a) (.Int b) = some (.error "Division by zero") ↔ b = 0) ∧
      (b ≠ 0 → ¬(a = -(2 ^ 63) ∧ b = -1) →
        evalBinOp .Div (.Int a) (.Int b) = some (.ok (.Int (Int.tdiv a b)))) ∧
      (a = -(2 ^ 63) → b = -1 → evalBinOp .Div (.Int a) (.Int b) = none)) ∧
    (∀ a b : Int,
      (evalBinOp .Mod (.Int a) (.Int b) = some (.error "Modulo by zero") ↔ b = 0) ∧
      (b ≠ 0 → ¬(a = -(2 ^ 63) ∧ b = -1) →
        evalBinOp .Mod (.Int a) (.Int b) = some (.ok (.Int (Int.tmod a b)))) ∧
      (a = -(2 ^ 63) → b = -1 → evalBinOp .Mod (.Int a) (.Int b) = none)) ∧
    (∀ x y : Rat,
      (evalBinOp .Div (.Float x) (.Float y) = some (.error "Division by zero") ↔ y = 0) ∧
      (y ≠ 0 → evalBinOp .Div (.Float x) (.Float y) = some (.ok (.Float (x / y))))) ∧
    (∀ x y : Rat,
      (evalBinOp .Mod (.Float x) (.Float y) = some (.error "Modulo by zero") ↔ y = 0) ∧
      (y ≠ 0 → evalBinOp .Mod (.Float x) (.Float y) = some (.ok (.Float (ratRem x y))))) := by
  refine ⟨fun a b => ⟨?_, ?_, ?_⟩, fun a b => ⟨?_, ?_, ?_⟩,
    fun x y => ⟨?_, ?_⟩, fun x y => ⟨?_, ?_⟩⟩
  · rw [evalBinOp_div_int]
    constructor
    · intro h
      by_contra hb
      rw [if_neg hb] at h
      by_cases hov : a = -(2 ^ 63) ∧ b = -1
      · rw [if_pos hov] at h
        exact absurd h (by simp)
      · rw [if_neg hov] at h
        exact absurd h (by simp)
    · intro hb
      rw [if_pos hb]
  · intro hb hov
    rw [evalBinOp_div_int, if_neg hb, if_neg hov]
  · intro ha hb1
    rw [evalBinOp_div_int, if_neg (by subst hb1; decide), if_pos ⟨ha, hb1⟩]
  · rw [evalBinOp_mod_int]
    constructor
    · intro h
      by_contra hb
      rw [if_neg hb] at h
      by_cases hov : a = -(2 ^ 63) ∧ b = -1
      · rw [if_pos hov] at h
        exact absurd h (by simp)
      · rw [if_neg hov] at h
        exact absurd h (by simp)
    · intro hb
      rw [if_pos hb]
  · intro hb hov
    rw [evalBinOp_mod_int, if_neg hb, if_neg hov]
  · intro ha hb1
    rw [evalBinOp_mod_int, if_neg (by subst hb1; decide), if_pos ⟨ha, hb1⟩]
  · rw [evalBinOp_div_float]
    constructor
    · intro h
      by_contra hb
      rw [if_neg hb] at h
      exact absurd h (by simp)
    · intro hb
      rw [if_pos hb]
  · intro hb
    rw [evalBinOp_div_float, if_neg hb]
  · rw [evalBinOp_mod_float]
    constructor
    · intro h
      by_contra hb
      rw [if_neg hb] at h
      exact absurd h (by simp)
    · intro hb
      rw [if_pos hb]
  · intro hb
    rw [evalBinOp_mod_float, if_neg hb]

/-- C8 witness: Int division succeeds for a nonzero, non-overflowing
pair, errs for a zero divisor, and has no result at the overflow pair. -/
theorem c8_div_mod_zero_witness :
    evalBinOp .Div (.Int 7) (.Int 2) = some (.ok (.Int 3)) ∧
    evalBinOp .Mod (.Int 7) (.Int 0) = some (.error "Modulo by zero") ∧
    evalBinOp .Div (.Int (-(2 ^ 63))) (.Int (-1)) = none :=
  ⟨(c8_div_mod_zero.1 7 2).2.1 (by decide) (by decide),
   ((c8_div_mod_zero.2.1 7 0).1).mpr rfl,
   (c8_div_mod_zero.1 (-(2 ^ 63)) (-1)).2.2 rfl rfl⟩

/-- C9: `Add` on two Str values concatenates; `Mul` of a Str by a
non-negative Int (in the i64 range) repeats it; `Add` on two Array values
concatenates the element sequences; in particular the three examples of
the spec hold. -/
theorem c9_operator_polymorphism :
    (∀ s t : String, evalBinOp .Add (.Str s) (.Str t) = some (.ok (.Str (s ++ t)))) ∧
    (∀ (s : String) (n : Int), 0 ≤ n → n < 2 ^ 63 →
      evalBinOp .Mul (.Str s) (.Int n) = some (.ok (.Str (strRepeat s n.toNat)))) ∧
    (∀ xs ys : List Val,
      evalBinOp .Add (.Array xs) (.Array ys) = some (.ok (.Array (xs ++ ys)))) ∧
    evalBinOp .Add (.Str "ab") (.Str "cd") = some (.ok (.Str "abcd")) ∧
    evalBinOp .Mul (.Str "ab") (.Int 3) = some (.ok (.Str "ababab")) ∧
    evalBinOp .Add (.Array [.Int 1]) (.Array [.Int 2])
      = some (.ok (.Array [.Int 1, .Int 2])) := by
  refine ⟨fun s t => rfl, fun s n h0 h1 => ?_, fun xs ys => rfl, rfl, by rfl, rfl⟩
  rw [show evalBinOp .Mul (.Str s) (.Int n) = some (.ok (.Str (strRepeat s (toUsize n))))
    from rfl, toUsize_of_nonneg n h0 h1]

/-- C9 witness: string repetition at the concrete input 3. -/
theorem c9_operator_polymorphism_witness :
    evalBinOp .Mul (.Str "ab") (.Int 3) = some (.ok (.Str (strRepeat "ab" (3 : Int).toNat))) :=
  c9_operator_polymorphism.2.1 "ab" 3 (by decide) (by decide)

/-- The `And Bool,Bool` arm of the dispatch. -/
theorem evalBinOp_and (a b : Bool) :
    evalBinOp .And (.Bool a) (.Bool b) = some (.ok (.Bool (a && b))) := rfl

/-- The `Or Bool,Bool` arm of the dispatch. -/
theorem evalBinOp_or (a b : Bool) :
    evalBinOp .Or (.Bool a) (.Bool b) = some (.ok (.Bool (a || b))) := rfl

/-- C6: `And`/`Or` evaluate both operands: with a Bool left value already
computed, the right operand is still evaluated (its state change `ip2`
lands in the result), an error in it surfaces regardless of the left
value, and on a Bool,Bool pair the results are the conjunction and the
disjunction. -/
theorem c6_and_or_no_short_circuit :
    ∀ (f : Nat) (ip ip1 ip2 : Interp) (lhs rhs : Expr) (a : Bool),
      evalE f ip lhs = some (ip1, .ok (.Bool a)) →
      ((∀ m, evalE f ip1 rhs = some (ip2, .error m) →
          evalE (f + 1) ip (.Binary .And lhs rhs) = some (ip2, .error m) ∧
          evalE (f + 1) ip (.Binary .Or lhs rhs) = some (ip2, .error m)) ∧
       (∀ b, evalE f ip1 rhs = some (ip2, .ok (.Bool b)) →
          evalE (f + 1) ip (.Binary .And lhs rhs) = some (ip2, .ok (.Bool (a && b))) ∧
          evalE (f + 1) ip (.Binary .Or lhs rhs) = some (ip2, .ok (.Bool (a || b))))) := by
  intro f ip ip1 ip2 lhs rhs a hl
  constructor
  · intro m hrh
    constructor <;> (rw [evalE_succ]; simp only [evalExprCore, hl, hrh])
  · intro b hrh
    constructor
    · rw [evalE_succ]
      simp only [evalExprCore, hl, hrh]
      rw [evalBinOp_and]
    · rw [evalE_succ]
      simp only [evalExprCore, hl, hrh]
      rw [evalBinOp_or]

/-- C6 witness: `false && (1/0 errors)` still errors, and
`false && true = false`. -/
theorem c6_and_or_no_short_circuit_witness :
    evalE 3 initInterp (.Binary .And (.Bool false) (.Binary .Div (.Int 1) (.Int 0)))
      = some (initInterp, .error "Division by zero") ∧
    evalE 3 initInterp (.Binary .And (.Bool false) (.Bool true))
      = some (initInterp, .ok (.Bool false)) :=
  ⟨((c6_and_or_no_short_circuit 2 initInterp initInterp initInterp (.Bool false)
      (.Binary .Div (.Int 1) (.Int 0)) false rfl).1 "Division by zero" rfl).1,
   ((c6_and_or_no_short_circuit 2 initInterp initInterp initInterp (.Bool false)
      (.Bool true) false rfl).2 true rfl).1⟩

/-- C10: on every successful evaluation (of an expression, or of a
statement), the call-stack length is restored: frames pushed by calls and
`for` loops are popped on every successful path, including early
`Return`. -/
theorem c10_stack_length_preserved :
    (∀ fuel ip e ip1 v, evalE fuel ip e = some (ip1, Except.ok v) →
      ip1.stack.length = ip.stack.length) ∧
    (∀ fuel ip s ip1 fl, execStmt (evalE fuel) ip s = some (ip1, Except.ok fl) →
      ip1.stack.length = ip.stack.length) :=
  ⟨fun fuel => evalE_pres fuel, fun fuel => execStmt_pres (evalE_pres fuel)⟩

/-- C10 witness: a `for` loop with an early `Return` restores the stack to
a single frame. -/
theorem c10_stack_length_preserved_witness :
    (⟨[], [⟨[], none⟩]⟩ : Interp).stack.length = initInterp.stack.length :=
  c10_stack_length_preserved.1 9 initInterp
    (.For "i" (.Int 0) (.Int 3) [Stmt.Return (.Int 5)]) ⟨[], [⟨[], none⟩]⟩ (.Int 5) rfl

/-- C1 counterexample: in
`fn g() { if (true) { return 1 } return 2 }  g()` the `Return 1` inside
the `If` does not unwind `g`; the later statement `return 2` executes and
the program yields 2, not 1. -/
theorem c1_return_in_if_counterexample :
    runProg 30 c1Prog = some (.ok (.Int 2)) ∧ Val.Int 2 ≠ Val.Int 1 :=
  ⟨rfl, by simp⟩

/-- C1 (amended): a `Return` executing inside an `If` branch, a `While` or
`For` body, or a nested `Block` does not propagate as a Return signal;
instead the enclosing control expression immediately evaluates to the
returned value (the rest of the branch or body, and further loop
iterations, are skipped), and execution continues with the following
statement.  Only a `Return` that is directly a statement of a function
body unwinds to the call site (popping the frame, with no later statement
of the body executing), and only a `Return` directly at top level
terminates the program with its value. -/
theorem c1_return_propagation_amended :
    (∀ (f : Nat) (ip ip1 ip2 : Interp) (cond : Expr) (t el : List Stmt) (b : Bool) (v : Val),
      evalE f ip cond = some (ip1, .ok (.Bool b)) →
      runBody (evalE f) ip1 .Unit (if b then t else el) = some (ip2, .ok (.ret v)) →
      evalE (f + 1) ip (.If cond t el) = some (ip2, .ok v)) ∧
    (∀ (f : Nat) (ip ip1 ip2 : Interp) (cond : Expr) (body : List Stmt) (v : Val),
      evalE f ip cond = some (ip1, .ok (.Bool true)) →
      runBody (evalE f) ip1 .Unit body = some (ip2, .ok (.ret v)) →
      evalE (f + 1) ip (.While cond body) = some (ip2, .ok v)) ∧
    (∀ (f : Nat) (ip ip1 : Interp) (stmts : List Stmt) (v : Val),
      runBody (evalE f) ip .Unit stmts = some (ip1, .ok (.ret v)) →
      evalE (f + 1) ip (.Block stmts) = some (ip1, .ok v)) ∧
    (∀ (f : Nat) (ip ip2 : Interp) (var : String) (i : Int) (rest : List Int)
        (body : List Stmt) (v : Val),
      runBody (evalE f)
          ⟨ip.global, updateLast ip.stack (fun fr => ⟨envSet fr.locals var (.Int i), fr.parent⟩)⟩
          .Unit body = some (ip2, .ok (.ret v)) →
      forIter (evalE f) ip var (i :: rest) body = some (ip2, .ok (some v))) ∧
    (∀ (f : Nat) (ip ip1 ip2 ip3 : Interp) (var : String) (start stop : Expr)
        (sti eni : Int) (body : List Stmt) (v : Val),
      evalE f ip start = some (ip1, .ok (.Int sti)) →
      evalE f ip1 stop = some (ip2, .ok (.Int eni)) →
      forIter (evalE f) ⟨ip2.global, ip2.stack ++ [⟨[], some (ip2.stack.length - 1)⟩]⟩
          var (intRange sti eni) body = some (ip3, .ok (some v)) →
      evalE (f + 1) ip (.For var start stop body) = some (⟨ip3.global, ip3.stack.dropLast⟩, .ok v)) ∧
    (∀ (f : Nat) (ip ip1 : Interp) (s : Stmt) (rest : List Stmt) (res v : Val),
      execStmt (evalE f) ip s = some (ip1, .ok (.ret v)) →
      runBody (evalE f) ip res (s :: rest) = some (ip1, .ok (.ret v))) ∧
    (∀ (f : Nat) (ip ip1 ip2 : Interp) (name : String) (params : List String)
        (body : List Stmt) (args : List Expr) (argVals : List Val) (v : Val),
      isBuiltin name = false →
      lookup ip name = .ok (.Function params body) →
      evalList (evalE f) ip args = some (ip1, .ok argVals) →
      params.length = argVals.length →
      runBody (evalE f) ⟨ip1.global, ip1.stack ++ [⟨bindParams params argVals, none⟩]⟩
          .Unit body = some (ip2, .ok (.ret v)) →
      evalE (f + 1) ip (.Call name args) = some (⟨ip2.global, ip2.stack.dropLast⟩, .ok v)) ∧
    (∀ (f : Nat) (ip1 : Interp) (prog : List Stmt) (v : Val),
      runBody (evalE f) initInterp .Unit prog = some (ip1, .ok (.ret v)) →
      runProg f prog = some (.ok v)) := by
  refine ⟨?_, ?_, ?_, ?_, ?_, ?_, ?_, ?_⟩
  · intro f ip ip1 ip2 cond t el b v hc hb
    rw [evalE_succ]
    simp only [evalExprCore, hc, hb]
  · intro f ip ip1 ip2 cond body v hc hb
    rw [evalE_succ]
    simp only [evalExprCore, hc, hb, if_true]
  · intro f ip ip1 stmts v hb
    rw [evalE_succ]
    simp only [evalExprCore, hb]
  · intro f ip ip2 var i rest body v hb
    simp only [forIter, hb]
  · intro f ip ip1 ip2 ip3 var start stop sti eni body v hs he hf
    rw [evalE_succ]
    simp only [evalExprCore, hs, he, hf]
  · intro f ip ip1 s rest res v hs
    simp only [runBody, hs]
  · intro f ip ip1 ip2 name params body args argVals v hbi hlk hargs hlen hb
    rw [evalE_succ]
    simp only [evalExprCore, hbi, Bool.false_eq_true, if_false, hlk, hargs, hlen, if_true, hb]
  · intro f ip1 prog v hb
    simp only [runProg, hb]

/-- C1 witness: at fuel 2, a `Return 7` inside a taken `If` branch makes
the `If` expression itself evaluate to 7. -/
theorem c1_return_propagation_amended_witness :
    evalE 3 initInterp (.If (.Bool true) [Stmt.Return (.Int 7)] []) =
      some (initInterp, .ok (.Int 7)) :=
  c1_return_propagation_amended.1 2 initInterp initInterp initInterp (.Bool true)
    [Stmt.Return (.Int 7)] [] true (.Int 7) rfl rfl

/-! ## Lemmas for call-scope isolation (C2) -/

theorem evalList_const_int (ps : List String) (f : Nat) (ip : Interp) :
    evalList (evalE (f + 1)) ip (ps.map fun _ => Expr.Int 0)
      = some (ip, .ok (ps.map fun _ => Val.Int 0)) := by
  induction ps with
  | nil => rfl
  | cons p rest ih =>
    simp only [List.map_cons, evalList]
    rw [show evalE (f + 1) ip (Expr.Int 0) = some (ip, .ok (Val.Int 0)) from rfl]
    simp only [ih]

theorem envGet_foldl_bind (c : Val) (x : String) :
    ∀ (ps : List String) (acc : List (String × Val)),
      envGet (List.foldl (fun e pa => envSet e pa.1 pa.2) acc (ps.zip (ps.map fun _ => c))) x
        = if x ∈ ps then some c else envGet acc x := by
  intro ps
  induction ps with
  | nil => simp
  | cons p rest ih =>
    intro acc
    simp only [List.map_cons, List.zip_cons_cons, List.foldl_cons]
    rw [ih (envSet acc p c)]
    by_cases hx : x ∈ rest
    · simp [hx]
    · by_cases hp : x = p
      · subst hp
        simp [hx, envGet_envSet_self]
      · simp [hx, hp, envGet_envSet_ne acc p x c (fun hh => hp hh.symm)]

theorem envGet_bindParams_const (ps : List String) (c : Val) (x : String) :
    envGet (bindParams ps (ps.map fun _ => c)) x = if x ∈ ps then some c else none := by
  rw [bindParams, envGet_foldl_bind c x ps []]
  rfl

/-- The chain walk on a stack whose top frame has no parent stops at that
frame. -/
theorem chainFind_call_frame (s : List Frame) (locals : List (String × Val)) (x : String) :
    chainFind (s ++ [⟨locals, none⟩]) x s.length
      = match envGet locals x with
        | some v => some (s.length, v)
        | none => none := by
  have hget : (s ++ [(⟨locals, none⟩ : Frame)]).get? s.length = some ⟨locals, none⟩ := by
    have h0 := get?_append_add s [⟨locals, none⟩] 0
    rw [Nat.add_zero] at h0
    rw [h0]
    rfl
  unfold chainFind
  rw [chainFindAux, hget]

/-- `lookup` on a stack whose top frame has no parent link sees only that
locals of that frame and the globals: the key structural fact behind call-scope
isolation. -/
theorem lookup_call_frame (g : List (String × Val)) (s : List Frame)
    (locals : List (String × Val)) (x : String) :
    lookup ⟨g, s ++ [⟨locals, none⟩]⟩ x =
      match envGet locals x with
      | some v => .ok v
      | none =>
        match envGet g x with
        | some v => .ok v
        | none => .error ("Undefined Variable: " ++ x) := by
  have hlen : (s ++ [(⟨locals, none⟩ : Frame)]).length - 1 = s.length := by simp
  unfold lookup
  simp only [hlen]
  rw [chainFind_call_frame s locals x]
  cases hg : envGet locals x with
  | some v => rfl
  | none => rfl

theorem dropLast_concat2 (s : List Frame) (a : Frame) : (s ++ [a]).dropLast = s := by
  simp

/-- C2: inside a user function call, name lookup sees only the callee
parameters (and locals) and the global table.  The call pushes a frame
with `parent = none`; a name `x` that is neither a parameter nor global —
in particular any name bound only in the locals of the caller — makes
`Var x` in the callee fail with `Undefined Variable: x`, for every caller
state `ip`; and a parameter `x` resolves to its argument value. -/
theorem c2_call_scope_isolation :
    ∀ (f : Nat) (ip : Interp) (fname x : String) (ps : List String),
      isBuiltin fname = false →
      lookup ip fname = .ok (.Function ps [Stmt.Expr (.Var x)]) →
      ((x ∉ ps → envGet ip.global x = none →
        evalE (f + 2) ip (.Call fname (ps.map fun _ => .Int 0)) =
          some (⟨ip.global, ip.stack ++ [⟨bindParams ps (ps.map fun _ => Val.Int 0), none⟩]⟩,
            .error ("Undefined Variable: " ++ x))) ∧
       (x ∈ ps →
        evalE (f + 2) ip (.Call fname (ps.map fun _ => .Int 0)) = some (ip, .ok (.Int 0)))) := by
  intro f ip fname x ps hbi hlk
  have hargs := evalList_const_int ps f ip
  constructor
  · intro hxp hxg
    have hlook :
        lookup ⟨ip.global, ip.stack ++ [⟨bindParams ps (ps.map fun _ => Val.Int 0), none⟩]⟩ x
          = .error ("Undefined Variable: " ++ x) := by
      rw [lookup_call_frame, envGet_bindParams_const]
      simp [hxp, hxg]
    rw [show f + 2 = (f + 1) + 1 from rfl, evalE_succ]
    simp only [evalExprCore, hbi, Bool.false_eq_true, if_false, hlk, hargs]
    rw [if_pos (by simp)]
    simp only [runBody, execStmt]
    rw [show evalE (f + 1)
        ⟨ip.global, ip.stack ++ [⟨bindParams ps (ps.map fun _ => Val.Int 0), none⟩]⟩ (.Var x)
      = some (⟨ip.global, ip.stack ++ [⟨bindParams ps (ps.map fun _ => Val.Int 0), none⟩]⟩,
          lookup ⟨ip.global, ip.stack ++ [⟨bindParams ps (ps.map fun _ => Val.Int 0), none⟩]⟩ x)
      from rfl, hlook]
  · intro hxp
    have hlook :
        lookup ⟨ip.global, ip.stack ++ [⟨bindParams ps (ps.map fun _ => Val.Int 0), none⟩]⟩ x
          = .ok (.Int 0) := by
      rw [lookup_call_frame, envGet_bindParams_const]
      simp [hxp]
    rw [show f + 2 = (f + 1) + 1 from rfl, evalE_succ]
    simp only [evalExprCore, hbi, Bool.false_eq_true, if_false, hlk, hargs]
    rw [if_pos (by simp)]
    simp only [runBody, execStmt]
    rw [show evalE (f + 1)
        ⟨ip.global, ip.stack ++ [⟨bindParams ps (ps.map fun _ => Val.Int 0), none⟩]⟩ (.Var x)
      = some (⟨ip.global, ip.stack ++ [⟨bindParams ps (ps.map fun _ => Val.Int 0), none⟩]⟩,
          lookup ⟨ip.global, ip.stack ++ [⟨bindParams ps (ps.map fun _ => Val.Int 0), none⟩]⟩ x)
      from rfl, hlook]
    simp only [dropLast_concat2]

/-- C2 witness: with a caller local `y` and a function `h(p)` whose body
reads `y`, the call fails with `Undefined Variable: y`; reading the
parameter `p` instead succeeds. -/
theorem c2_call_scope_isolation_witness :
    evalE 3
      ⟨[("h", .Function ["p"] [Stmt.Expr (.Var "y")])], [⟨[("y", .Int 5)], none⟩]⟩
      (.Call "h" [.Int 0]) =
      some (⟨[("h", .Function ["p"] [Stmt.Expr (.Var "y")])],
        [⟨[("y", .Int 5)], none⟩] ++ [⟨bindParams ["p"] [Val.Int 0], none⟩]⟩,
        .error ("Undefined Variable: " ++ "y")) :=
  ((c2_call_scope_isolation 1
      ⟨[("h", .Function ["p"] [Stmt.Expr (.Var "y")])], [⟨[("y", .Int 5)], none⟩]⟩
      "h" "y" ["p"] rfl rfl).1) (by simp) rfl

/-! ## Lemmas for Declare (C4) -/

theorem chainFind_concat_found (s : List Frame) (fr : Frame) (name : String) (v : Val)
    (h : envGet fr.locals name = some v) :
    chainFind (s ++ [fr]) name s.length = some (s.length, v) := by
  have hget : (s ++ [fr]).get? s.length = some fr := by
    have h0 := get?_append_add s [fr] 0
    rw [Nat.add_zero] at h0
    rw [h0]
    rfl
  unfold chainFind
  rw [chainFindAux, hget]
  simp only [h]

/-- Reading a name bound in the top frame resolves there at once. -/
theorem lookup_top_found (g : List (String × Val)) (s : List Frame) (fr : Frame)
    (name : String) (v : Val) (h : envGet fr.locals name = some v) :
    lookup ⟨g, s ++ [fr]⟩ name = .ok v := by
  have hlen : (s ++ [fr]).length - 1 = s.length := by simp
  unfold lookup
  simp only [hlen]
  rw [chainFind_concat_found s fr name v h]

/-- `lookup_mut` misses exactly when the name is unresolvable in the
sense of the spec (parent chain from the innermost frame, then globals). -/
theorem lookupMut_none_iff (ip : Interp) (name : String) :
    lookupMut ip name = none ↔ ¬ resolvableSpec ip name := by
  unfold lookupMut resolvableSpec
  cases h : chainFind ip.stack name (ip.stack.length - 1) with
  | some pv =>
    obtain ⟨i, v⟩ := pv
    simp [h]
  | none =>
    cases hg : envGet ip.global name with
    | some v => simp [h, hg]
    | none => simp [h, hg]

/-- C4: `let name = e` first evaluates `e` (an error there surfaces
unchanged); then it fails with the variable-already-exists error exactly
when `name` is resolvable through the parent chain or the global table
(the `lookup_mut` hit carries the existing value into the message), and
otherwise binds `name` to the value in the innermost frame, after which an
immediate read of `name` yields that value. -/
theorem c4_declare_semantics :
    ∀ (f : Nat) (ip ip1 : Interp) (name : String) (e : Expr),
      (lookupMut ip1 name = none ↔ ¬ resolvableSpec ip1 name) ∧
      (∀ m, evalE f ip e = some (ip1, .error m) →
        execStmt (evalE f) ip (.Assignment name e) = some (ip1, .error m)) ∧
      (∀ v, evalE f ip e = some (ip1, .ok v) →
        (∀ loc old, lookupMut ip1 name = some (loc, old) →
          execStmt (evalE f) ip (.Assignment name e) =
            some (ip1, .error (varExistsMsg name old))) ∧
        (lookupMut ip1 name = none →
          ∀ (s : List Frame) (fr : Frame), ip1.stack = s ++ [fr] →
            execStmt (evalE f) ip (.Assignment name e) =
              some (⟨ip1.global, s ++ [⟨envSet fr.locals name v, fr.parent⟩]⟩,
                .ok (.cont .Unit)) ∧
            lookup ⟨ip1.global, s ++ [⟨envSet fr.locals name v, fr.parent⟩]⟩ name = .ok v)) := by
  intro f ip ip1 name e
  refine ⟨lookupMut_none_iff ip1 name, ?_, ?_⟩
  · intro m he
    simp only [execStmt, he]
  · intro v he
    constructor
    · intro loc old hmut
      simp only [execStmt, he, hmut]
    · intro hmut s fr hstack
      constructor
      · simp only [execStmt, he, hmut, hstack, updateLast_concat]
      · exact lookup_top_found ip1.global s ⟨envSet fr.locals name v, fr.parent⟩ name v
          (envGet_envSet_self fr.locals name v)

/-- C4 witness: on a fresh interpreter `let x = 5` binds `x` in the base
frame and `x` then reads back 5; a second declaration of `x` fails with
the variable-already-exists message. -/
theorem c4_declare_semantics_witness :
    (execStmt (evalE 1) initInterp (.Assignment "x" (.Int 5)) =
        some (⟨[], [] ++ [⟨envSet [] "x" (.Int 5), none⟩]⟩, .ok (.cont .Unit)) ∧
      lookup ⟨[], [] ++ [⟨envSet [] "x" (.Int 5), none⟩]⟩ "x" = .ok (.Int 5)) ∧
    execStmt (evalE 1) ⟨[], [⟨[("x", .Int 5)], none⟩]⟩ (.Assignment "x" (.Int 7)) =
      some (⟨[], [⟨[("x", .Int 5)], none⟩]⟩, .error (varExistsMsg "x" (.Int 5))) :=
  ⟨((c4_declare_semantics 1 initInterp initInterp "x" (.Int 5)).2.2 (.Int 5) rfl).2
      rfl [] ⟨[], none⟩ rfl,
   ((c4_declare_semantics 1 ⟨[], [⟨[("x", .Int 5)], none⟩]⟩ ⟨[], [⟨[("x", .Int 5)], none⟩]⟩
      "x" (.Int 7)).2.2 (.Int 7) rfl).1 (.frame 0) (.Int 5) rfl⟩

/-! ## Lemmas for call value semantics (C5) -/

theorem set_append_length (s : List Frame) (a b : Frame) :
    (s ++ [a]).set s.length b = s ++ [b] := by
  induction s with
  | nil => rfl
  | cons h t ih =>
    simp only [List.cons_append, List.set]
    exact congrArg (h :: ·) ih

/-- A mutable lookup of a name bound in the top frame lands in the top
frame. -/
theorem lookupMut_top_found (g : List (String × Val)) (s : List Frame) (fr : Frame)
    (name : String) (v : Val) (h : envGet fr.locals name = some v) :
    lookupMut ⟨g, s ++ [fr]⟩ name = some (.frame s.length, v) := by
  have hlen : (s ++ [fr]).length - 1 = s.length := by simp
  unfold lookupMut
  simp only [hlen]
  rw [chainFind_concat_found s fr name v h]

/-- C5: arrays are value-semantic across calls.  For every caller state
`ip` binding `x` to an array, calling `fname(x)` where `fname` assigns
`p[0] = 99` to its parameter and returns `p` yields the mutated array as
the call value, yet the final interpreter state is exactly `ip`: the
binding of the caller for `x` still holds the original array. -/
theorem c5_array_value_semantics :
    ∀ (f : Nat) (ip : Interp) (fname x p : String) (vs : List Val),
      isBuiltin fname = false →
      lookup ip fname = .ok (.Function [p]
        [Stmt.Reassignment (.ArrayAccess p [.Int 0]) (.Int 99), Stmt.Return (.Var p)]) →
      lookup ip x = .ok (.Array vs) →
      vs ≠ [] →
      evalE (f + 2) ip (.Call fname [.Var x]) =
          some (ip, .ok (.Array (vs.set 0 (.Int 99)))) ∧
      lookup ip x = .ok (.Array vs) := by
  intro f ip fname x p vs hbi hlk hx hne
  refine ⟨?_, hx⟩
  have hargs : evalList (evalE (f + 1)) ip [.Var x] = some (ip, .ok [.Array vs]) := by
    have hv : evalE (f + 1) ip (.Var x) = some (ip, lookup ip x) := rfl
    rw [hx] at hv
    simp only [evalList, hv]
  have hmut :
      lookupMut ⟨ip.global, ip.stack ++ [⟨[(p, .Array vs)], none⟩]⟩ p
        = some (.frame ip.stack.length, .Array vs) :=
    lookupMut_top_found ip.global ip.stack ⟨[(p, .Array vs)], none⟩ p (.Array vs)
      (by simp [envGet])
  have hset : setPath (.Array vs) [toUsize 0] (.Int 99)
      = .ok (.Array (vs.set 0 (.Int 99))) := by
    rw [show toUsize 0 = 0 from rfl]
    simp only [setPath]
    rw [if_pos (List.length_pos.mpr hne)]
  have hwrite :
      writeLoc ⟨ip.global, ip.stack ++ [⟨[(p, .Array vs)], none⟩]⟩
          (.frame ip.stack.length) p (.Array (vs.set 0 (.Int 99)))
        = ⟨ip.global, ip.stack ++ [⟨[(p, .Array (vs.set 0 (.Int 99)))], none⟩]⟩ := by
    have hget : (ip.stack ++ [(⟨[(p, .Array vs)], none⟩ : Frame)]).get? ip.stack.length
        = some ⟨[(p, .Array vs)], none⟩ := by
      have h0 := get?_append_add ip.stack [⟨[(p, .Array vs)], none⟩] 0
      rw [Nat.add_zero] at h0
      rw [h0]
      rfl
    simp only [writeLoc, hget]
    rw [show envSet [(p, Val.Array vs)] p (.Array (vs.set 0 (.Int 99)))
        = [(p, Val.Array (vs.set 0 (.Int 99)))] from by simp [envSet]]
    rw [set_append_length]
  have hstmt1 :
      execStmt (evalE (f + 1)) ⟨ip.global, ip.stack ++ [⟨[(p, .Array vs)], none⟩]⟩
          (.Reassignment (.ArrayAccess p [.Int 0]) (.Int 99))
        = some (⟨ip.global, ip.stack ++ [⟨[(p, .Array (vs.set 0 (.Int 99)))], none⟩]⟩,
            .ok (.cont .Unit)) := by
    have hv99 : evalE (f + 1) ⟨ip.global, ip.stack ++ [⟨[(p, .Array vs)], none⟩]⟩ (.Int 99)
        = some (⟨ip.global, ip.stack ++ [⟨[(p, .Array vs)], none⟩]⟩, .ok (.Int 99)) := rfl
    have hidx : evalIdxList (evalE (f + 1))
          ⟨ip.global, ip.stack ++ [⟨[(p, .Array vs)], none⟩]⟩ [.Int 0]
        = some (⟨ip.global, ip.stack ++ [⟨[(p, .Array vs)], none⟩]⟩, .ok [toUsize 0]) := rfl
    simp only [execStmt, hv99, hidx, hmut, hset, hwrite]
  have hstmt2 :
      execStmt (evalE (f + 1))
          ⟨ip.global, ip.stack ++ [⟨[(p, .Array (vs.set 0 (.Int 99)))], none⟩]⟩
          (.Return (.Var p))
        = some (⟨ip.global, ip.stack ++ [⟨[(p, .Array (vs.set 0 (.Int 99)))], none⟩]⟩,
            .ok (.ret (.Array (vs.set 0 (.Int 99))))) := by
    have hv : evalE (f + 1)
          ⟨ip.global, ip.stack ++ [⟨[(p, .Array (vs.set 0 (.Int 99)))], none⟩]⟩ (.Var p)
        = some (⟨ip.global, ip.stack ++ [⟨[(p, .Array (vs.set 0 (.Int 99)))], none⟩]⟩,
            lookup ⟨ip.global, ip.stack ++ [⟨[(p, .Array (vs.set 0 (.Int 99)))], none⟩]⟩ p)
        := rfl
    rw [lookup_top_found ip.global ip.stack ⟨[(p, .Array (vs.set 0 (.Int 99)))], none⟩ p
      (.Array (vs.set 0 (.Int 99))) (by simp [envGet])] at hv
    simp only [execStmt, hv]
  rw [show f + 2 = (f + 1) + 1 from rfl, evalE_succ]
  simp only [evalExprCore, hbi, Bool.false_eq_true, if_false, hlk, hargs]
  rw [if_pos (by simp)]
  rw [show bindParams [p] [Val.Array vs] = [(p, Val.Array vs)] from rfl]
  simp only [runBody, hstmt1, hstmt2, dropLast_concat2]

/-- C5 witness: the concrete instance with `x = [1, 2]`. -/
theorem c5_array_value_semantics_witness :
    evalE 3
        ⟨[("m", .Function ["p"]
            [Stmt.Reassignment (.ArrayAccess "p" [.Int 0]) (.Int 99),
             Stmt.Return (.Var "p")])],
          [⟨[("x", .Array [.Int 1, .Int 2])], none⟩]⟩
        (.Call "m" [.Var "x"]) =
      some (⟨[("m", .Function ["p"]
            [Stmt.Reassignment (.ArrayAccess "p" [.Int 0]) (.Int 99),
             Stmt.Return (.Var "p")])],
          [⟨[("x", .Array [.Int 1, .Int 2])], none⟩]⟩,
        .ok (.Array ([Val.Int 1, Val.Int 2].set 0 (.Int 99)))) :=
  (c5_array_value_semantics 1
    ⟨[("m", .Function ["p"]
        [Stmt.Reassignment (.ArrayAccess "p" [.Int 0]) (.Int 99),
         Stmt.Return (.Var "p")])],
      [⟨[("x", .Array [.Int 1, .Int 2])], none⟩]⟩
    "m" "x" "p" [.Int 1, .Int 2] rfl rfl rfl (by simp)).1

/-- C7: a negative `Int` index (any value an `i64` can hold) wraps to a
huge unsigned index `idx + 2^64 ≥ 2^63` under the `as usize` cast, so
every read (`ArrayAccess` on an array or a string) and every indexed
assignment on an array of length below `2^63` fails with the out-of-bounds
error carrying the wrapped index. -/
theorem c7_negative_index_wrap :
    ∀ (f : Nat) (ip : Interp) (name : String) (idx : Int),
      -(2 ^ 63) ≤ idx → idx < 0 →
      (toUsize idx = (idx + 2 ^ 64).toNat ∧ 2 ^ 63 ≤ toUsize idx) ∧
      (∀ vs : List Val, lookup ip name = .ok (.Array vs) → (vs.length : Int) < 2 ^ 63 →
        evalE (f + 2) ip (.ArrayAccess name [.Int idx]) =
          some (ip, .error ("Array index out of bounds: " ++ toString (toUsize idx)))) ∧
      (∀ s : String, lookup ip name = .ok (.Str s) → (s.data.length : Int) < 2 ^ 63 →
        evalE (f + 2) ip (.ArrayAccess name [.Int idx]) =
          some (ip, .error ("String index out of bounds: " ++ toString (toUsize idx)))) ∧
      (∀ (loc : Loc) (vs : List Val), lookupMut ip name = some (loc, .Array vs) →
        (vs.length : Int) < 2 ^ 63 →
        execStmt (evalE (f + 1)) ip (.Reassignment (.ArrayAccess name [.Int idx]) (.Int 0)) =
          some (ip, .error ("Array index out of bounds: " ++ toString (toUsize idx)))) := by
  intro f ip name idx h0 h1
  have hwrap := toUsize_of_neg idx h0 h1
  have hi : evalE (f + 1) ip (.Int idx) = some (ip, .ok (.Int idx)) := rfl
  refine ⟨hwrap, ?_, ?_, ?_⟩
  · intro vs hlk hlen
    have hget : vs.get? (toUsize idx) = none := by
      rw [List.get?_eq_none]
      omega
    rw [show f + 2 = (f + 1) + 1 from rfl, evalE_succ]
    simp only [evalExprCore, hlk, walkAccess, hi, hget]
  · intro s hlk hlen
    have hget : s.data.get? (toUsize idx) = none := by
      rw [List.get?_eq_none]
      omega
    rw [show f + 2 = (f + 1) + 1 from rfl, evalE_succ]
    simp only [evalExprCore, hlk, walkAccess, hi, hget]
  · intro loc vs hmut hlen
    have hv0 : evalE (f + 1) ip (.Int 0) = some (ip, .ok (.Int 0)) := rfl
    have hidx : evalIdxList (evalE (f + 1)) ip [.Int idx] = some (ip, .ok [toUsize idx]) := rfl
    have hset : setPath (.Array vs) [toUsize idx] (.Int 0)
        = .error ("Array index out of bounds: " ++ toString (toUsize idx)) := by
      simp only [setPath]
      rw [if_neg (by omega)]
    simp only [execStmt, hv0, hidx, hmut, hset]

/-- C7 witness: index `-1` on the one-element array bound to `a` wraps to
`2^64 - 1` and errs, in both the read and the write path. -/
theorem c7_negative_index_wrap_witness :
    evalE 3 ⟨[], [⟨[("a", .Array [.Int 1])], none⟩]⟩ (.ArrayAccess "a" [.Int (-1)]) =
      some (⟨[], [⟨[("a", .Array [.Int 1])], none⟩]⟩,
        .error ("Array index out of bounds: " ++ toString (toUsize (-1)))) ∧
    execStmt (evalE 2) ⟨[], [⟨[("a", .Array [.Int 1])], none⟩]⟩
        (.Reassignment (.ArrayAccess "a" [.Int (-1)]) (.Int 0)) =
      some (⟨[], [⟨[("a", .Array [.Int 1])], none⟩]⟩,
        .error ("Array index out of bounds: " ++ toString (toUsize (-1)))) :=
  ⟨(c7_negative_index_wrap 1 ⟨[], [⟨[("a", .Array [.Int 1])], none⟩]⟩ "a" (-1)
      (by decide) (by decide)).2.1 [.Int 1] rfl (by decide),
   (c7_negative_index_wrap 1 ⟨[], [⟨[("a", .Array [.Int 1])], none⟩]⟩ "a" (-1)
      (by decide) (by decide)).2.2.2 (.frame 0) [.Int 1] rfl (by decide)⟩

/-! ## Lemmas for for-loop scoping (C3) -/

theorem set_append_lt (s t : List Frame) (i : Nat) (b : Frame) (h : i < s.length) :
    (s ++ t).set i b = s.set i b ++ t := by
  induction s generalizing i with
  | nil => simp at h
  | cons hd tl ih =>
    cases i with
    | zero => rfl
    | succ j =>
      simp only [List.cons_append, List.set]
      exact congrArg (hd :: ·) (ih j (by simpa using h))

/-- The `Add Int,Int` arm of the dispatch. -/
theorem evalBinOp_add_int (a b : Int) :
    evalBinOp .Add (.Int a) (.Int b) = some (.ok (.Int (a + b))) := rfl

theorem get?_concat_self (s : List Frame) (fr : Frame) :
    (s ++ [fr]).get? s.length = some fr := by
  have h0 := get?_append_add s [fr] 0
  rw [Nat.add_zero] at h0
  rw [h0]
  rfl

/-- Chain walk through a loop frame: the top frame misses, its parent link
points at the enclosing frame (index `st.length`), which hits. -/
theorem chainFind_loop_frame (st : List Frame) (F L : Frame) (n : String) (w : Val)
    (hL : envGet L.locals n = none) (hLp : L.parent = some st.length)
    (hF : envGet F.locals n = some w) :
    chainFind ((st ++ [F]) ++ [L]) n (st.length + 1) = some (st.length, w) := by
  have hgetL : ((st ++ [F]) ++ [L]).get? (st.length + 1) = some L := by
    have h0 := get?_concat_self (st ++ [F]) L
    simp only [List.length_append, List.length_cons, List.length_nil] at h0
    exact h0
  have hgetF : ((st ++ [F]) ++ [L]).get? st.length = some F := by
    rw [get?_append_lt _ _ _ (by simp)]
    exact get?_concat_self st F
  unfold chainFind
  rw [chainFindAux, hgetL]
  simp only [hL, hLp]
  show (if st.length < st.length + 1
      then chainFindAux ((st ++ [F]) ++ [L]) n st.length st.length else none)
    = some (st.length, w)
  rw [if_pos (Nat.lt_succ_self st.length)]
  rw [chainFindAux, hgetF]
  simp only [hF]

theorem lookup_loop_frame (g : List (String × Val)) (st : List Frame) (F L : Frame)
    (n : String) (w : Val) (hL : envGet L.locals n = none) (hLp : L.parent = some st.length)
    (hF : envGet F.locals n = some w) :
    lookup ⟨g, (st ++ [F]) ++ [L]⟩ n = .ok w := by
  have hlen : (((st ++ [F]) ++ [L]).length - 1) = st.length + 1 := by simp
  unfold lookup
  simp only [hlen]
  rw [chainFind_loop_frame st F L n w hL hLp hF]

theorem lookupMut_loop_frame (g : List (String × Val)) (st : List Frame) (F L : Frame)
    (n : String) (w : Val) (hL : envGet L.locals n = none) (hLp : L.parent = some st.length)
    (hF : envGet F.locals n = some w) :
    lookupMut ⟨g, (st ++ [F]) ++ [L]⟩ n = some (.frame st.length, w) := by
  have hlen : (((st ++ [F]) ++ [L]).length - 1) = st.length + 1 := by simp
  unfold lookupMut
  simp only [hlen]
  rw [chainFind_loop_frame st F L n w hL hLp hF]

/-- The chain walk from the frame below the top is blind to the top
locals of the top frame, provided neither binds the name. -/
theorem chainFind_top_swap (st : List Frame) (l1 l2 : List (String × Val)) (par : Option Nat)
    (n : String) (h1 : envGet l1 n = none) (h2 : envGet l2 n = none) :
    chainFind (st ++ [⟨l1, par⟩]) n st.length = chainFind (st ++ [⟨l2, par⟩]) n st.length := by
  unfold chainFind
  rw [chainFindAux, chainFindAux, get?_concat_self st ⟨l1, par⟩, get?_concat_self st ⟨l2, par⟩]
  simp only [h1, h2]
  cases par with
  | none => rfl
  | some p =>
    cases hsl : st.length with
    | zero => rfl
    | succ fuel =>
      show (if p < fuel + 1 then chainFindAux (st ++ [⟨l1, some p⟩]) n fuel p else none)
        = (if p < fuel + 1 then chainFindAux (st ++ [⟨l2, some p⟩]) n fuel p else none)
      by_cases hp : p < fuel + 1
      · rw [if_pos hp, if_pos hp,
          chainFindAux_append st [⟨l1, some p⟩] n fuel p (by omega),
          chainFindAux_append st [⟨l2, some p⟩] n fuel p (by omega)]
      · rw [if_neg hp, if_neg hp]

/-- If a name was unresolvable with one top frame not binding it, it stays
unresolvable after other bindings of that frame change. -/
theorem lookup_var_transfer (g : List (String × Val)) (st : List Frame)
    (l1 l2 : List (String × Val)) (par : Option Nat) (v : String)
    (h1 : envGet l1 v = none) (h2 : envGet l2 v = none)
    (herr : lookup ⟨g, st ++ [⟨l1, par⟩]⟩ v = .error ("Undefined Variable: " ++ v)) :
    lookup ⟨g, st ++ [⟨l2, par⟩]⟩ v = .error ("Undefined Variable: " ++ v) := by
  have hlen1 : ((st ++ [(⟨l1, par⟩ : Frame)]).length - 1) = st.length := by simp
  have hlen2 : ((st ++ [(⟨l2, par⟩ : Frame)]).length - 1) = st.length := by simp
  unfold lookup at herr ⊢
  simp only [hlen1] at herr
  simp only [hlen2]
  rw [← chainFind_top_swap st l1 l2 par v h1 h2]
  exact herr

/-- One iteration of the loop body `x = x + v` run in a loop frame whose
parent is the enclosing frame binding `x`: the read of `x` goes through
the parent chain, the read of `v` hits the loop frame, and the write
mutates the enclosing binding in place. -/
theorem loop_body_step (f : Nat) (g : List (String × Val)) (st : List Frame)
    (par : Option Nat) (x v : String) (hvx : v ≠ x) (a i : Int) :
    runBody (evalE (f + 2))
        ⟨g, (st ++ [⟨[(x, .Int a)], par⟩]) ++ [⟨[(v, .Int i)], some st.length⟩]⟩ .Unit
        [Stmt.Reassignment (.Ident x) (.Binary .Add (.Var x) (.Var v))]
      = some (⟨g, (st ++ [⟨[(x, .Int (a + i))], par⟩]) ++ [⟨[(v, .Int i)], some st.length⟩]⟩,
          .ok (.cont .Unit)) := by
  have hL : envGet [(v, Val.Int i)] x = none := by
    simp [envGet, hvx]
  have hF : envGet [(x, Val.Int a)] x = some (.Int a) := by
    simp [envGet]
  have hlx : lookup ⟨g, (st ++ [⟨[(x, .Int a)], par⟩]) ++ [⟨[(v, .Int i)], some st.length⟩]⟩ x
      = .ok (.Int a) :=
    lookup_loop_frame g st ⟨[(x, .Int a)], par⟩ ⟨[(v, .Int i)], some st.length⟩ x (.Int a)
      hL rfl hF
  have hlv : lookup ⟨g, (st ++ [⟨[(x, .Int a)], par⟩]) ++ [⟨[(v, .Int i)], some st.length⟩]⟩ v
      = .ok (.Int i) :=
    lookup_top_found g (st ++ [⟨[(x, .Int a)], par⟩]) ⟨[(v, .Int i)], some st.length⟩ v (.Int i)
      (by simp [envGet])
  have hex : evalE (f + 1)
        ⟨g, (st ++ [⟨[(x, .Int a)], par⟩]) ++ [⟨[(v, .Int i)], some st.length⟩]⟩ (.Var x)
      = some (⟨g, (st ++ [⟨[(x, .Int a)], par⟩]) ++ [⟨[(v, .Int i)], some st.length⟩]⟩,
          .ok (.Int a)) := by
    have h0 : evalE (f + 1)
          ⟨g, (st ++ [⟨[(x, .Int a)], par⟩]) ++ [⟨[(v, .Int i)], some st.length⟩]⟩ (.Var x)
        = some (⟨g, (st ++ [⟨[(x, .Int a)], par⟩]) ++ [⟨[(v, .Int i)], some st.length⟩]⟩,
            lookup ⟨g, (st ++ [⟨[(x, .Int a)], par⟩]) ++ [⟨[(v, .Int i)], some st.length⟩]⟩ x)
        := rfl
    rw [hlx] at h0
    exact h0
  have hev : evalE (f + 1)
        ⟨g, (st ++ [⟨[(x, .Int a)], par⟩]) ++ [⟨[(v, .Int i)], some st.length⟩]⟩ (.Var v)
      = some (⟨g, (st ++ [⟨[(x, .Int a)], par⟩]) ++ [⟨[(v, .Int i)], some st.length⟩]⟩,
          .ok (.Int i)) := by
    have h0 : evalE (f + 1)
          ⟨g, (st ++ [⟨[(x, .Int a)], par⟩]) ++ [⟨[(v, .Int i)], some st.length⟩]⟩ (.Var v)
        = some (⟨g, (st ++ [⟨[(x, .Int a)], par⟩]) ++ [⟨[(v, .Int i)], some st.length⟩]⟩,
            lookup ⟨g, (st ++ [⟨[(x, .Int a)], par⟩]) ++ [⟨[(v, .Int i)], some st.length⟩]⟩ v)
        := rfl
    rw [hlv] at h0
    exact h0
  have hbin : evalE (f + 2)
        ⟨g, (st ++ [⟨[(x, .Int a)], par⟩]) ++ [⟨[(v, .Int i)], some st.length⟩]⟩
        (.Binary .Add (.Var x) (.Var v))
      = some (⟨g, (st ++ [⟨[(x, .Int a)], par⟩]) ++ [⟨[(v, .Int i)], some st.length⟩]⟩,
          .ok (.Int (a + i))) := by
    rw [evalE_succ]
    simp only [evalExprCore, hex, hev]
    rw [evalBinOp_add_int]
  have hmut : lookupMut
        ⟨g, (st ++ [⟨[(x, .Int a)], par⟩]) ++ [⟨[(v, .Int i)], some st.length⟩]⟩ x
      = some (.frame st.length, .Int a) :=
    lookupMut_loop_frame g st ⟨[(x, .Int a)], par⟩ ⟨[(v, .Int i)], some st.length⟩ x (.Int a)
      hL rfl hF
  have hwrite : writeLoc
        ⟨g, (st ++ [⟨[(x, .Int a)], par⟩]) ++ [⟨[(v, .Int i)], some st.length⟩]⟩
        (.frame st.length) x (.Int (a + i))
      = ⟨g, (st ++ [⟨[(x, .Int (a + i))], par⟩]) ++ [⟨[(v, .Int i)], some st.length⟩]⟩ := by
    have hget : List.get?
        ((st ++ [⟨[(x, .Int a)], par⟩]) ++ [⟨[(v, .Int i)], some st.length⟩]) st.length
        = some ⟨[(x, .Int a)], par⟩ := by
      rw [get?_append_lt _ _ _ (by simp)]
      exact get?_concat_self st ⟨[(x, .Int a)], par⟩
    simp only [writeLoc, hget]
    rw [show envSet [(x, Val.Int a)] x (.Int (a + i)) = [(x, Val.Int (a + i))] from by
      simp [envSet]]
    rw [set_append_lt _ _ _ _ (by simp), set_append_length]
  simp only [runBody, execStmt, hbin, hmut, hwrite]

/-- C3: a `For` loop pushes a frame whose parent is the index of the frame
on top at entry and pops it on exit.  For every enclosing state (arbitrary
lower stack `st`, globals `g`, parent link `par`) with the top frame
binding `x`, running `for v in 0..2 { x = x + v }`:
reads of `x` inside the body reach the enclosing binding through the
parent chain, the reassignment mutates that enclosing binding in place
(`x` ends at `a + 1`), the loop frame is popped, and the loop variable `v`
is not resolvable after the loop (given it was not resolvable before). -/
theorem c3_for_loop_scoping :
    ∀ (f : Nat) (g : List (String × Val)) (st : List Frame) (par : Option Nat)
      (x v : String) (a : Int),
      v ≠ x →
      lookup ⟨g, st ++ [⟨[(x, .Int a)], par⟩]⟩ v = .error ("Undefined Variable: " ++ v) →
      evalE (f + 3) ⟨g, st ++ [⟨[(x, .Int a)], par⟩]⟩
          (.For v (.Int 0) (.Int 2)
            [Stmt.Reassignment (.Ident x) (.Binary .Add (.Var x) (.Var v))])
        = some (⟨g, st ++ [⟨[(x, .Int (a + 1))], par⟩]⟩, .ok .Unit) ∧
      lookup ⟨g, st ++ [⟨[(x, .Int (a + 1))], par⟩]⟩ v
        = .error ("Undefined Variable: " ++ v) := by
  intro f g st par x v a hvx herr
  have henv1 : envGet [(x, Val.Int a)] v = none := by
    rw [envGet, if_neg (fun hh : x = v => hvx hh.symm)]
    rfl
  have henv2 : envGet [(x, Val.Int (a + 1))] v = none := by
    rw [envGet, if_neg (fun hh : x = v => hvx hh.symm)]
    rfl
  refine ⟨?_, lookup_var_transfer g st [(x, .Int a)] [(x, .Int (a + 1))] par v henv1 henv2 herr⟩
  have hstart : evalE (f + 2) ⟨g, st ++ [⟨[(x, .Int a)], par⟩]⟩ (.Int 0)
      = some (⟨g, st ++ [⟨[(x, .Int a)], par⟩]⟩, .ok (.Int 0)) := rfl
  have hstop : evalE (f + 2) ⟨g, st ++ [⟨[(x, .Int a)], par⟩]⟩ (.Int 2)
      = some (⟨g, st ++ [⟨[(x, .Int a)], par⟩]⟩, .ok (.Int 2)) := rfl
  have hrange : intRange 0 2 = [0, 1] := rfl
  have hset0 : envSet [] v (Val.Int 0) = [(v, Val.Int 0)] := rfl
  have hset1 : envSet [(v, Val.Int 0)] v (Val.Int 1) = [(v, Val.Int 1)] := by
    simp [envSet]
  have hstep0 := loop_body_step f g st par x v hvx a 0
  have hstep1 := loop_body_step f g st par x v hvx a 1
  rw [show f + 3 = (f + 2) + 1 from rfl, evalE_succ]
  simp only [evalExprCore, hstart, hstop, hrange, List.length_append, List.length_cons,
    List.length_nil, Nat.add_sub_cancel, forIter, updateLast_concat, Nat.cast_zero,
    Nat.cast_one, Nat.cast_ofNat, add_zero, zero_add, hset0, hset1,
    hstep0, hstep1, dropLast_concat2]

/-- C3 witness: on the concrete state binding `x = 5`, the loop
`for i in 0..2 { x = x + i }` yields Unit, sets `x` to 6, and `i` stays
unresolvable afterwards. -/
theorem c3_for_loop_scoping_witness :
    evalE 4 ⟨[], [⟨[("x", .Int 5)], none⟩]⟩
        (.For "i" (.Int 0) (.Int 2)
          [Stmt.Reassignment (.Ident "x") (.Binary .Add (.Var "x") (.Var "i"))])
      = some (⟨[], [⟨[("x", .Int 6)], none⟩]⟩, .ok .Unit) ∧
    lookup ⟨[], [⟨[("x", .Int 6)], none⟩]⟩ "i" = .error ("Undefined Variable: " ++ "i") :=
  c3_for_loop_scoping 1 [] [] none "x" "i" 5 (by decide) rfl

end Ew
